import Mathlib

/-!
Verification of the DataCo supply-chain analysis scripts.

This file is a shallow embedding of `src/data_cleaning.py` and
`src/feature_engineering.py`: a dataframe is a header list plus row-major
cell data, fallible pandas operations run in the `Except` monad (a raised
Python exception is `Except.error`), and the specified properties of the
cleaning pipeline and feature builders are settled as theorems after the
definitions.
-/

namespace DataCo

/-- A single cell of the order-record table: missing (NaN/NaT), a rational
number, a string, a calendar date, or a monthly period. -/
inductive Cell where
  | null
  | num (q : ℚ)
  | str (s : String)
  | date (y m d : ℕ)
  | period (y m : ℕ)
  deriving DecidableEq

abbrev Row := List Cell

/-- A dataframe: named columns and row-major data. -/
structure Table where
  cols : List String
  rows : List Row
  deriving DecidableEq

/-- Well-formedness: every row has exactly one cell per column. -/
abbrev WF (df : Table) : Prop := ∀ r ∈ df.rows, r.length = df.cols.length

/-- The cell of row `i` in the first column labelled `c`; out-of-range
reads give `null`. -/
def getCell (df : Table) (c : String) (i : ℕ) : Cell :=
  (df.rows.getD i []).getD (df.cols.indexOf c) Cell.null

/-- The whole series `df[c]`. -/
def getCol (df : Table) (c : String) : List Cell :=
  df.rows.map fun r => r.getD (df.cols.indexOf c) Cell.null

/-- Column assignment `df[c] = vals`: overwrite the column when the label
exists, otherwise append a new column. -/
def setCol (df : Table) (c : String) (vals : List Cell) : Table :=
  if c ∈ df.cols then
    { cols := df.cols
      rows := (df.rows.zip vals).map fun p => p.1.set (df.cols.indexOf c) p.2 }
  else
    { cols := df.cols ++ [c]
      rows := (df.rows.zip vals).map fun p => p.1 ++ [p.2] }

/-! ### data_cleaning.py -/

/-- The code points stripped by Python `str.strip` (exactly the characters
on which `str.isspace` holds): ASCII whitespace including vertical tab and
form feed, the 0x1c-0x1f separators, NEL, and the Unicode Zs/Zl/Zp
spaces. -/
def pySpaceCodes : List ℕ :=
  [9, 10, 11, 12, 13, 28, 29, 30, 31, 32, 133, 160, 5760,
   8192, 8193, 8194, 8195, 8196, 8197, 8198, 8199, 8200, 8201, 8202,
   8232, 8233, 8239, 8287, 12288]

def pyIsSpace (c : Char) : Bool := decide (c.toNat ∈ pySpaceCodes)

/-- Python `str.strip`: drop leading and trailing whitespace (in the
Python sense of whitespace). -/
def pyStrip (l : List Char) : List Char :=
  ((l.dropWhile pyIsSpace).reverse.dropWhile pyIsSpace).reverse

/-- The column-name transform of `standardize_columns`: strip, lowercase,
replace spaces by underscores, delete parentheses, replace periods by
underscores (the source replaces `.` with `_`, it does not delete it). -/
def cleanChars (l : List Char) : List Char :=
  ((((pyStrip l).map Char.toLower).map fun c => if c = ' ' then '_' else c).filter
      fun c => decide (c ≠ '(' ∧ c ≠ ')')).map fun c => if c = '.' then '_' else c

def cleanName (s : String) : String := ⟨cleanChars s.data⟩

/-- Modelled from the claim wording only (for comparison with `cleanName`):
trim, lowercase, spaces to underscores, parentheses AND periods deleted. -/
def specCleanName (s : String) : String :=
  ⟨(((pyStrip s.data).map Char.toLower).map fun c => if c = ' ' then '_' else c).filter
      fun c => decide (c ≠ '(' ∧ c ≠ ')' ∧ c ≠ '.')⟩

def standardizeCore (df : Table) : Table :=
  { cols := df.cols.map cleanName, rows := df.rows }

/-- `standardize_columns`: renames the columns, keeps the data. -/
def standardize_columns (df : Table) : Except String Table :=
  .ok (standardizeCore df)

/-- The fixed PII/redundant drop list of `drop_redundant_columns`. -/
def cols_to_drop : List String :=
  ["customer_email", "customer_password", "product_image",
   "customer_fname", "customer_lname"]

/-- `df.drop(columns=drops)`: remove every column whose label is listed. -/
def dropColumns (df : Table) (drops : List String) : Table :=
  { cols := df.cols.filter fun c => decide (c ∉ drops)
    rows := df.rows.map fun r =>
      (((df.cols.zip r).filter fun p => decide (p.1 ∉ drops)).map Prod.snd) }

def dropCore (df : Table) : Table :=
  dropColumns df (cols_to_drop.filter fun c => decide (c ∈ df.cols))

/-- `drop_redundant_columns`: drops whichever of the five listed columns
exist. -/
def drop_redundant_columns (df : Table) : Except String Table :=
  .ok (dropCore df)

def date_cols : List String := ["order_date_dateorders", "shipping_date_dateorders"]

def splitOnChar (sep : Char) : List Char → List (List Char)
  | [] => [[]]
  | c :: cs =>
    let r := splitOnChar sep cs
    if c = sep then [] :: r
    else
      match r with
      | [] => [[c]]
      | h :: t => (c :: h) :: t

def digitsToNat? (l : List Char) : Option ℕ :=
  if l ≠ [] ∧ l.all Char.isDigit then
    some (l.foldl (fun acc c => acc * 10 + (c.toNat - 48)) 0)
  else none

/-- Parse a date string of shape `YYYY-MM-DD`. -/
def parseDate (s : String) : Option (ℕ × ℕ × ℕ) :=
  match (splitOnChar '-' s.data).map digitsToNat? with
  | [some y, some m, some d] =>
    if 1 ≤ m ∧ m ≤ 12 ∧ 1 ≤ d ∧ d ≤ 31 then some (y, m, d) else none
  | _ => none

/-- One cell under `pd.to_datetime(..., errors=coerce)`: parse failures
become null, never an error. -/
def toDatetimeCell (c : Cell) : Cell :=
  match c with
  | .str s =>
    match parseDate s with
    | some (y, m, d) => .date y m d
    | none => .null
  | .date y m d => .date y m d
  | _ => .null

/-- One iteration of the loop in `convert_date_columns`. -/
def convStep (acc : Table) (col : String) : Table :=
  if col ∈ acc.cols then setCol acc col ((getCol acc col).map toDatetimeCell)
  else acc

def convertCore (df : Table) : Table :=
  date_cols.foldl convStep df

/-- `convert_date_columns`: coercing conversion of the two date columns,
each only when present. -/
def convert_date_columns (df : Table) : Except String Table :=
  .ok (convertCore df)

/-- Round half to even (the rounding used by `Series.round` / numpy). -/
def roundHalfEven (q : ℚ) : ℤ :=
  let f := ⌊q⌋
  if q - f < 1 / 2 then f
  else if (1 : ℚ) / 2 < q - f then f + 1
  else if f % 2 = 0 then f else f + 1

/-- Round to two decimal places. -/
def round2 (q : ℚ) : ℚ := (roundHalfEven (q * 100) : ℚ) / 100

/-- The per-column missing-value report printed by `handle_missing_values`
(count and percentage, columns with no missing values filtered out). -/
def missingReport (df : Table) : List (String × ℕ × ℚ) :=
  (df.cols.map fun c =>
    let cnt := ((getCol df c).filter fun x => decide (x = Cell.null)).length
    (c, cnt, round2 ((cnt : ℚ) / (df.rows.length : ℚ) * 100))).filter
    fun t => decide (0 < t.2.1)

/-- `handle_missing_values`: computes and prints the report, returns the
table unchanged. -/
def handle_missing_values (df : Table) : Except String Table :=
  let _report := missingReport df
  .ok df

/-- Fuel-bounded keep-first deduplication; the fuel only bounds recursion
depth and is irrelevant once it is at least the list length. -/
def dedupFirstAux {α : Type} [DecidableEq α] : ℕ → List α → List α
  | _, [] => []
  | 0, _ :: _ => []
  | n + 1, r :: rs => r :: dedupFirstAux n (rs.filter fun x => decide (x ≠ r))

/-- `DataFrame.drop_duplicates`: keep the first occurrence of each row. -/
def dedupFirst {α : Type} [DecidableEq α] (l : List α) : List α :=
  dedupFirstAux l.length l

def dedupCore (df : Table) : Table :=
  { cols := df.cols, rows := dedupFirst df.rows }

/-- `remove_duplicates`: deduplicates, then prints a report whose
percentage divides the removed count by the input row count — on an empty
frame Python raises ZeroDivisionError before returning. -/
def remove_duplicates (df : Table) : Except String Table :=
  let initial_rows := df.rows.length
  let deduped := dedupCore df
  let removed := initial_rows - deduped.rows.length
  if initial_rows = 0 then .error "ZeroDivisionError: division by zero"
  else
    let _pct : ℚ := (removed : ℚ) / (initial_rows : ℚ) * 100
    .ok deduped

def isNumOrNull : Cell → Bool
  | .num _ => true
  | .null => true
  | _ => false

def isDateOrNull : Cell → Bool
  | .date _ _ _ => true
  | .null => true
  | _ => false

def cellSub : Cell → Cell → Cell
  | .num a, .num b => .num (a - b)
  | _, _ => .null

/-- Column subtraction `df[a] - df[b]`: elementwise with NaN propagation;
pandas raises TypeError on non-numeric operands. -/
def colSub (a b : List Cell) : Except String (List Cell) :=
  if a.all isNumOrNull && b.all isNumOrNull then .ok (List.zipWith cellSub a b)
  else .error "TypeError: unsupported operand types"

/-- The `.dt` accessor requires a datetime-like column. -/
def colDt (f : Cell → Cell) (a : List Cell) : Except String (List Cell) :=
  if a.all isDateOrNull then .ok (a.map f)
  else .error "AttributeError: can only use .dt accessor with datetimelike values"

def toPeriodM : Cell → Cell
  | .date y m _ => .period y m
  | _ => .null

def dateYear : Cell → Cell
  | .date y _ _ => .num y
  | _ => .null

def dayNames : List String :=
  ["Saturday", "Sunday", "Monday", "Tuesday", "Wednesday", "Thursday", "Friday"]

/-- Zeller congruence; 0 is Saturday. -/
def zeller (y m d : ℕ) : ℕ :=
  let m' := if m ≤ 2 then m + 12 else m
  let y' := if m ≤ 2 then y - 1 else y
  (d + 13 * (m' + 1) / 5 + y' % 100 + y' % 100 / 4 + y' / 100 / 4 + 5 * (y' / 100)) % 7

def dayNameCell : Cell → Cell
  | .date y m d => .str (dayNames.getD (zeller y m d) "")
  | _ => .null

/-- The `np.where` condition `df[sales] != 0` (NaN and non-numbers compare
unequal to 0, hence true). -/
def cellNeZero : Cell → Bool
  | .num q => decide (q ≠ 0)
  | _ => true

/-- One entry of `(profit / sales * 100).round(2)`; the value produced at
`sales = 0` is never selected by the surrounding `np.where`. -/
def cellDivMulRound (p s : Cell) : Cell :=
  match p, s with
  | .num a, .num b => if b = 0 then .null else .num (round2 (a / b * 100))
  | _, _ => .null

/-- `np.where(df[sales] != 0, (profit / sales * 100).round(2), 0)`. -/
def colProfitMargin (p s : List Cell) : Except String (List Cell) :=
  if p.all isNumOrNull && s.all isNumOrNull then
    .ok (List.zipWith (fun pc sc => if cellNeZero sc then cellDivMulRound pc sc else .num 0) p s)
  else .error "TypeError: unsupported operand types"

/-- Block 1 of `add_derived_features`: shipping delay (actual - scheduled),
guarded by existence of both source columns. -/
def addShipFeature (df : Table) : Except String Table :=
  if "days_for_shipping_real" ∈ df.cols ∧ "days_for_shipment_scheduled" ∈ df.cols then
    (colSub (getCol df "days_for_shipping_real")
        (getCol df "days_for_shipment_scheduled")).map
      (setCol df "shipping_delay_days")
  else .ok df

/-- Block 2 of `add_derived_features`: order month, year and weekday name,
guarded by existence of the order date column. -/
def addDateFeatures (df : Table) : Except String Table :=
  if "order_date_dateorders" ∈ df.cols then do
    let om ← colDt toPeriodM (getCol df "order_date_dateorders")
    let d1 := setCol df "order_month" om
    let oy ← colDt dateYear (getCol d1 "order_date_dateorders")
    let d2 := setCol d1 "order_year" oy
    let dw ← colDt dayNameCell (getCol d2 "order_date_dateorders")
    .ok (setCol d2 "order_day_of_week" dw)
  else .ok df

/-- Block 3 of `add_derived_features`: profit margin percentage, guarded by
existence of both source columns. -/
def addProfitMargin (df : Table) : Except String Table :=
  if "order_profit_per_order" ∈ df.cols ∧ "sales" ∈ df.cols then
    (colProfitMargin (getCol df "order_profit_per_order") (getCol df "sales")).map
      (setCol df "profit_margin_pct")
  else .ok df

/-- `add_derived_features`: the three guarded blocks in source order. -/
def add_derived_features (df : Table) : Except String Table := do
  let d1 ← addShipFeature df
  let d2 ← addDateFeatures d1
  addProfitMargin d2

/-- `run_full_cleaning_pipeline` applied to the loaded table. -/
def run_full_cleaning_pipeline (df : Table) : Except String Table := do
  let d1 ← standardize_columns df
  let d2 ← drop_redundant_columns d1
  let d3 ← convert_date_columns d2
  let d4 ← handle_missing_values d3
  let d5 ← remove_duplicates d4
  add_derived_features d5

/-- Does a cell parse to an actual date under the coercing conversion? -/
def isParsedDate (c : Cell) : Bool :=
  match toDatetimeCell c with
  | .date _ _ _ => true
  | _ => false

/-- The row count of the pipeline result (when the pipeline succeeds). -/
def pipelineRowCount (df : Table) : Except String ℕ :=
  (run_full_cleaning_pipeline df).map fun t => t.rows.length

/-- A concrete 10-row loaded table for the end-to-end scenario: rows 2 and 4
are exact duplicates of rows 1 and 3 (so the loaded table has 8 distinct
rows), rows 5 and 6 differ only in `customer_email`, and row 7 has zero
sales with profit 50. -/
def c3Bad : Table :=
  { cols := ["customer_email", "customer_password", "product_image",
      "customer_fname", "customer_lname", "sales", "order_profit_per_order",
      "order_date_dateorders", "shipping_date_dateorders"]
    rows :=
      [[.str "e1@x", .str "p", .str "i", .str "f", .str "l", .num 10, .num 5,
        .str "2017-01-01", .str "2017-01-03"],
       [.str "e1@x", .str "p", .str "i", .str "f", .str "l", .num 10, .num 5,
        .str "2017-01-01", .str "2017-01-03"],
       [.str "e1@x", .str "p", .str "i", .str "f", .str "l", .num 20, .num 6,
        .str "2017-01-02", .str "2017-01-04"],
       [.str "e1@x", .str "p", .str "i", .str "f", .str "l", .num 20, .num 6,
        .str "2017-01-02", .str "2017-01-04"],
       [.str "a@x", .str "p", .str "i", .str "f", .str "l", .num 30, .num 7,
        .str "2017-01-05", .str "2017-01-06"],
       [.str "b@x", .str "p", .str "i", .str "f", .str "l", .num 30, .num 7,
        .str "2017-01-05", .str "2017-01-06"],
       [.str "g@x", .str "p", .str "i", .str "f", .str "l", .num 0, .num 50,
        .str "2017-01-07", .str "2017-01-08"],
       [.str "h@x", .str "p", .str "i", .str "f", .str "l", .num 40, .num 8,
        .str "2017-01-09", .str "2017-01-10"],
       [.str "i@x", .str "p", .str "i", .str "f", .str "l", .num 50, .num 9,
        .str "2017-01-11", .str "2017-01-12"],
       [.str "j@x", .str "p", .str "i", .str "f", .str "l", .num 60, .num 11,
        .str "2017-01-13", .str "2017-01-14"]] }

/-- A variant of the scenario table whose rows stay pairwise distinct after
the PII columns are dropped (row 6 differs from row 5 in `sales`, not just
in `customer_email`), so the dedup stage still sees 8 distinct rows. -/
def c3Good : Table :=
  { cols := ["customer_email", "customer_password", "product_image",
      "customer_fname", "customer_lname", "sales", "order_profit_per_order",
      "order_date_dateorders", "shipping_date_dateorders"]
    rows :=
      [[.str "e1@x", .str "p", .str "i", .str "f", .str "l", .num 10, .num 5,
        .str "2017-01-01", .str "2017-01-03"],
       [.str "e1@x", .str "p", .str "i", .str "f", .str "l", .num 10, .num 5,
        .str "2017-01-01", .str "2017-01-03"],
       [.str "e1@x", .str "p", .str "i", .str "f", .str "l", .num 20, .num 6,
        .str "2017-01-02", .str "2017-01-04"],
       [.str "e1@x", .str "p", .str "i", .str "f", .str "l", .num 20, .num 6,
        .str "2017-01-02", .str "2017-01-04"],
       [.str "a@x", .str "p", .str "i", .str "f", .str "l", .num 30, .num 7,
        .str "2017-01-05", .str "2017-01-06"],
       [.str "b@x", .str "p", .str "i", .str "f", .str "l", .num 35, .num 7,
        .str "2017-01-05", .str "2017-01-06"],
       [.str "g@x", .str "p", .str "i", .str "f", .str "l", .num 0, .num 50,
        .str "2017-01-07", .str "2017-01-08"],
       [.str "h@x", .str "p", .str "i", .str "f", .str "l", .num 40, .num 8,
        .str "2017-01-09", .str "2017-01-10"],
       [.str "i@x", .str "p", .str "i", .str "f", .str "l", .num 50, .num 9,
        .str "2017-01-11", .str "2017-01-12"],
       [.str "j@x", .str "p", .str "i", .str "f", .str "l", .num 60, .num 11,
        .str "2017-01-13", .str "2017-01-14"]] }

/-! ### feature_engineering.py -/

theorem toNat_ofNat_of_lt {n : ℕ} (h : n < 55296) : (Char.ofNat n).toNat = n := by
  rw [Char.ofNat, dif_pos (Or.inl h : n.isValidChar)]
  rfl

theorem char_eq_iff_toNat {a b : Char} : a = b ↔ a.toNat = b.toNat := by
  constructor
  · intro h; rw [h]
  · intro h
    have := congrArg Char.ofNat h
    simpa using this

theorem char_le_iff_toNat {a b : Char} : a ≤ b ↔ a.toNat ≤ b.toNat := by
  rw [Char.le_def, UInt32.le_def, BitVec.le_def]
  rfl

theorem toLower_of_upper {c : Char} (h : 65 ≤ c.toNat ∧ c.toNat ≤ 90) :
    (Char.toLower c).toNat = c.toNat + 32 := by
  rw [Char.toLower]
  rw [if_pos ⟨h.1, h.2⟩]
  exact toNat_ofNat_of_lt (by omega)

theorem toLower_of_not_upper {c : Char} (h : ¬(65 ≤ c.toNat ∧ c.toNat ≤ 90)) :
    Char.toLower c = c := by
  rw [Char.toLower]
  exact if_neg h

theorem uint32_le_iff_toNat {a b : UInt32} : a ≤ b ↔ a.toNat ≤ b.toNat := by
  rw [UInt32.le_def, BitVec.le_def]
  exact Iff.rfl

theorem isUpper_iff {c : Char} : c.isUpper = true ↔ 65 ≤ c.toNat ∧ c.toNat ≤ 90 := by
  show (c.val ≥ 65 && c.val ≤ 90) = true ↔ _
  rw [Bool.and_eq_true, decide_eq_true_eq, decide_eq_true_eq, ge_iff_le,
    uint32_le_iff_toNat, uint32_le_iff_toNat]
  exact Iff.rfl

theorem isUpper_toLower (c : Char) : (Char.toLower c).isUpper = false := by
  by_cases h : 65 ≤ c.toNat ∧ c.toNat ≤ 90
  · have := toLower_of_upper h
    rw [Bool.eq_false_iff]
    intro hu
    have := isUpper_iff.mp hu
    omega
  · rw [toLower_of_not_upper h, Bool.eq_false_iff]
    intro hu
    exact h (isUpper_iff.mp hu)

theorem not_pyIsSpace_of_lower_range {c : Char} (h1 : 97 ≤ c.toNat)
    (h2 : c.toNat ≤ 122) : pyIsSpace c = false := by
  unfold pyIsSpace
  rw [decide_eq_false_iff_not]
  intro hc
  have hall : ∀ n ∈ pySpaceCodes, n < 97 ∨ 122 < n := by decide
  rcases hall _ hc with h | h <;> omega

theorem pyIsSpace_toLower {c : Char} (h : pyIsSpace c = false) :
    pyIsSpace (Char.toLower c) = false := by
  by_cases hu : 65 ≤ c.toNat ∧ c.toNat ≤ 90
  · have hl := toLower_of_upper hu
    exact not_pyIsSpace_of_lower_range (by omega) (by omega)
  · rw [toLower_of_not_upper hu]
    exact h

theorem mem_pyStrip {l : List Char} {c : Char} (h : c ∈ pyStrip l) : c ∈ l := by
  unfold pyStrip at h
  rw [List.mem_reverse] at h
  have h2 := (List.dropWhile_sublist (l := (l.dropWhile pyIsSpace).reverse)
    (p := pyIsSpace)).subset h
  rw [List.mem_reverse] at h2
  exact (List.dropWhile_sublist (l := l) (p := pyIsSpace)).subset h2

theorem cleanChars_props {l : List Char} {c : Char} (hc : c ∈ cleanChars l) :
    c ≠ ' ' ∧ c ≠ '(' ∧ c ≠ ')' ∧ c ≠ '.' ∧ c.isUpper = false := by
  unfold cleanChars at hc
  obtain ⟨b, hb, rfl⟩ := List.mem_map.mp hc
  obtain ⟨hb1, hb2⟩ := List.mem_filter.mp hb
  obtain ⟨a1, ha1, rfl⟩ := List.mem_map.mp hb1
  obtain ⟨a0, _, rfl⟩ := List.mem_map.mp ha1
  rw [decide_eq_true_eq] at hb2
  set b := if Char.toLower a0 = ' ' then '_' else Char.toLower a0 with hbdef
  have hbs : b ≠ ' ' := by
    rw [hbdef]
    split
    · decide
    · assumption
  have hbu : b.isUpper = false := by
    rw [hbdef]
    split
    · decide
    · exact isUpper_toLower a0
  refine ⟨?_, ?_, ?_, ?_, ?_⟩
  · split
    · decide
    · exact hbs
  · split
    · decide
    · exact hb2.1
  · split
    · decide
    · exact hb2.2
  · split
    · decide
    · assumption
  · split
    · decide
    · exact hbu

theorem cleanChars_no_ws {l : List Char}
    (hl : ∀ x ∈ l, pyIsSpace x = true → x = ' ') :
    ∀ c ∈ cleanChars l, pyIsSpace c = false := by
  intro c hc
  unfold cleanChars at hc
  obtain ⟨b, hb, rfl⟩ := List.mem_map.mp hc
  obtain ⟨hb1, _⟩ := List.mem_filter.mp hb
  obtain ⟨a1, ha1, rfl⟩ := List.mem_map.mp hb1
  obtain ⟨a0, ha0, rfl⟩ := List.mem_map.mp ha1
  have ha0l : a0 ∈ l := mem_pyStrip ha0
  set b := if Char.toLower a0 = ' ' then '_' else Char.toLower a0 with hbdef
  have hbw : pyIsSpace b = false := by
    by_cases hw : pyIsSpace a0 = true
    · have ha : a0 = ' ' := hl a0 ha0l hw
      rw [hbdef, ha]
      decide
    · have hlow := pyIsSpace_toLower (Bool.eq_false_iff.mpr hw)
      rw [hbdef]
      split
      · decide
      · exact hlow
  split
  · decide
  · exact hbw

theorem dropWhile_eq_self_of_forall {p : Char → Bool} {l : List Char}
    (h : ∀ x ∈ l, p x = false) : l.dropWhile p = l := by
  cases l with
  | nil => rfl
  | cons a l =>
    rw [List.dropWhile_cons, if_neg]
    rw [h a (List.mem_cons_self a l)]
    simp

theorem cleanChars_fixed {l : List Char}
    (h : ∀ c ∈ l, pyIsSpace c = false ∧ c.isUpper = false ∧
      c ≠ ' ' ∧ c ≠ '(' ∧ c ≠ ')' ∧ c ≠ '.') : cleanChars l = l := by
  unfold cleanChars
  have hstrip : pyStrip l = l := by
    unfold pyStrip
    rw [dropWhile_eq_self_of_forall (fun x hx => (h x hx).1)]
    rw [dropWhile_eq_self_of_forall (fun x hx => (h x (List.mem_reverse.mp hx)).1)]
    exact List.reverse_reverse l
  rw [hstrip]
  have hlow : l.map Char.toLower = l := by
    rw [List.map_congr_left (g := id) ?_, List.map_id]
    intro a ha
    show Char.toLower a = a
    refine toLower_of_not_upper ?_
    intro hc
    have := (h a ha).2.1
    rw [isUpper_iff.mpr hc] at this
    cases this
  rw [hlow]
  have hsp : (l.map fun c => if c = ' ' then '_' else c) = l := by
    rw [List.map_congr_left (g := id) ?_, List.map_id]
    intro a ha
    show (if a = ' ' then '_' else a) = a
    rw [if_neg (h a ha).2.2.1]
  rw [hsp]
  have hfil : (l.filter fun c => decide (c ≠ '(' ∧ c ≠ ')')) = l := by
    rw [List.filter_eq_self]
    intro a ha
    rw [decide_eq_true_eq]
    exact ⟨(h a ha).2.2.2.1, (h a ha).2.2.2.2.1⟩
  rw [hfil]
  rw [List.map_congr_left (g := id) ?_, List.map_id]
  intro a ha
  show (if a = '.' then '_' else a) = a
  rw [if_neg (h a ha).2.2.2.2.2]

theorem cleanChars_idem {l : List Char}
    (hl : ∀ x ∈ l, pyIsSpace x = true → x = ' ') :
    cleanChars (cleanChars l) = cleanChars l := by
  refine cleanChars_fixed ?_
  intro c hc
  have h1 := cleanChars_props hc
  have h2 := cleanChars_no_ws hl c hc
  exact ⟨h2, h1.2.2.2.2, h1.1, h1.2.1, h1.2.2.1, h1.2.2.2.1⟩

theorem cleanName_idem {s : String}
    (hs : ∀ x ∈ s.data, pyIsSpace x = true → x = ' ') :
    cleanName (cleanName s) = cleanName s := by
  unfold cleanName
  exact congrArg String.mk (cleanChars_idem hs)

/-! ### Support lemmas: tables and column assignment -/

theorem getCol_length (df : Table) (c : String) : (getCol df c).length = df.rows.length := by
  simp [getCol]

theorem getCell_of_lt (df : Table) (c : String) {i : ℕ} (hi : i < df.rows.length) :
    getCell df c i = (df.rows[i]).getD (df.cols.indexOf c) Cell.null := by
  unfold getCell
  congr 1
  rw [List.getD_eq_getElem?_getD, List.getElem?_eq_getElem hi]
  rfl

theorem getCell_of_ge (df : Table) (c : String) {i : ℕ} (hi : df.rows.length ≤ i) :
    getCell df c i = Cell.null := by
  unfold getCell
  have h0 : df.rows.getD i [] = [] := by
    rw [List.getD_eq_getElem?_getD, List.getElem?_eq_none hi]
    rfl
  rw [h0]
  rfl

theorem getCol_getD (df : Table) (c : String) (i : ℕ) :
    (getCol df c).getD i Cell.null = getCell df c i := by
  by_cases hi : i < df.rows.length
  · have hgl : i < (getCol df c).length := by rw [getCol_length]; exact hi
    rw [List.getD_eq_getElem?_getD, List.getElem?_eq_getElem hgl]
    simp only [Option.getD_some]
    unfold getCol
    rw [List.getElem_map]
    rw [getCell_of_lt df c hi]
  · rw [List.getD_eq_getElem?_getD,
      List.getElem?_eq_none (by rw [getCol_length]; omega)]
    rw [getCell_of_ge df c (by omega)]
    rfl

theorem indexOf_ne_of_ne {cols : List String} {c c' : String}
    (hc : c ∈ cols) (hc' : c' ∈ cols) (hne : c' ≠ c) :
    cols.indexOf c' ≠ cols.indexOf c := by
  intro h
  apply hne
  have h1 := List.getElem_indexOf (List.indexOf_lt_length.mpr hc')
  have h2 := List.getElem_indexOf (List.indexOf_lt_length.mpr hc)
  rw [← h1, ← h2]
  congr 1

theorem setCol_cols (df : Table) (c : String) (vals : List Cell) :
    (setCol df c vals).cols = if c ∈ df.cols then df.cols else df.cols ++ [c] := by
  unfold setCol
  split <;> rfl

theorem mem_setCol_cols {df : Table} {d : String} (c : String) (vals : List Cell)
    (h : d ∈ df.cols) : d ∈ (setCol df c vals).cols := by
  rw [setCol_cols]
  split
  · exact h
  · exact List.mem_append_left _ h

theorem mem_setCol_self (df : Table) (c : String) (vals : List Cell) :
    c ∈ (setCol df c vals).cols := by
  rw [setCol_cols]
  split
  · assumption
  · exact List.mem_append_right _ (List.mem_singleton.mpr rfl)

theorem not_mem_setCol_cols {df : Table} {d : String} {c : String} (vals : List Cell)
    (h : d ∉ df.cols) (hne : d ≠ c) : d ∉ (setCol df c vals).cols := by
  rw [setCol_cols]
  split
  · exact h
  · intro hd
    rcases List.mem_append.mp hd with h1 | h1
    · exact h h1
    · exact hne (List.mem_singleton.mp h1)

theorem setCol_rows_length (df : Table) (c : String) (vals : List Cell)
    (hlen : vals.length = df.rows.length) :
    (setCol df c vals).rows.length = df.rows.length := by
  unfold setCol
  split <;> simp [List.length_zip, hlen]

theorem WF_setCol {df : Table} (c : String) (vals : List Cell) (hwf : WF df)
    (_hlen : vals.length = df.rows.length) : WF (setCol df c vals) := by
  unfold setCol
  split
  · intro r hr
    obtain ⟨p, hp, rfl⟩ := List.mem_map.mp hr
    have hmem := List.of_mem_zip hp
    simpa using hwf p.1 hmem.1
  · intro r hr
    obtain ⟨p, hp, rfl⟩ := List.mem_map.mp hr
    have hmem := List.of_mem_zip hp
    simp [hwf p.1 hmem.1]

theorem setCol_rows_getElem (df : Table) (c : String) (vals : List Cell)
    (hlen : vals.length = df.rows.length) {i : ℕ} (hi : i < df.rows.length) :
    (setCol df c vals).rows[i]? =
      some (if c ∈ df.cols then (df.rows[i]).set (df.cols.indexOf c) (vals[i])
            else (df.rows[i]) ++ [vals[i]]) := by
  have hzl : i < (df.rows.zip vals).length := by
    rw [List.length_zip, hlen, Nat.min_self]
    exact hi
  unfold setCol
  by_cases hm : c ∈ df.cols
  · rw [if_pos hm]
    show ((df.rows.zip vals).map _)[i]? = _
    rw [List.getElem?_map, List.getElem?_eq_getElem hzl]
    simp only [Option.map_some']
    congr 1
    rw [List.getElem_zip, if_pos hm]
  · rw [if_neg hm]
    show ((df.rows.zip vals).map _)[i]? = _
    rw [List.getElem?_map, List.getElem?_eq_getElem hzl]
    simp only [Option.map_some']
    congr 1
    rw [List.getElem_zip, if_neg hm]

theorem getCell_setCol_same (df : Table) (c : String) (vals : List Cell)
    (hwf : WF df) (hlen : vals.length = df.rows.length) (i : ℕ) :
    getCell (setCol df c vals) c i = vals.getD i Cell.null := by
  by_cases hi : i < df.rows.length
  · have hi' : i < (setCol df c vals).rows.length := by
      rw [setCol_rows_length df c vals hlen]
      exact hi
    rw [getCell_of_lt _ _ hi']
    have hrow : (setCol df c vals).rows[i] =
        (if c ∈ df.cols then (df.rows[i]).set (df.cols.indexOf c) (vals[i])
         else (df.rows[i]) ++ [vals[i]]) := by
      have h1 := setCol_rows_getElem df c vals hlen hi
      rw [List.getElem?_eq_getElem hi'] at h1
      exact Option.some.inj h1
    rw [hrow, setCol_cols]
    have hrl : (df.rows[i]).length = df.cols.length :=
      hwf _ (List.getElem_mem hi)
    have hvg : vals.getD i Cell.null = vals[i] := by
      rw [List.getD_eq_getElem?_getD, List.getElem?_eq_getElem (by omega : i < vals.length)]
      rfl
    by_cases hm : c ∈ df.cols
    · rw [if_pos hm, if_pos hm]
      have hidx : df.cols.indexOf c < ((df.rows[i]).set (df.cols.indexOf c)
          (vals[i])).length := by
        rw [List.length_set, hrl]
        exact List.indexOf_lt_length.mpr hm
      rw [List.getD_eq_getElem?_getD, List.getElem?_eq_getElem hidx]
      simp only [Option.getD_some]
      rw [List.getElem_set_self, hvg]
    · rw [if_neg hm, if_neg hm]
      have hidx : (df.cols ++ [c]).indexOf c = df.cols.length := by
        rw [List.indexOf_append_of_not_mem hm]
        simp [List.indexOf_cons_self]
      rw [hidx, List.getD_eq_getElem?_getD]
      have hlt : df.cols.length < ((df.rows[i]) ++ [vals[i]]).length := by
        simp [hrl]
      rw [List.getElem?_eq_getElem hlt]
      simp only [Option.getD_some]
      rw [hvg]
      exact List.getElem_concat_length _ _ _ hrl.symm _
  · rw [getCell_of_ge _ _ (by rw [setCol_rows_length df c vals hlen]; omega)]
    rw [List.getD_eq_getElem?_getD, List.getElem?_eq_none (by omega : vals.length ≤ i)]
    rfl

theorem getCell_setCol_other (df : Table) {c c' : String} (vals : List Cell)
    (hwf : WF df) (hlen : vals.length = df.rows.length)
    (hc' : c' ∈ df.cols) (hne : c' ≠ c) (i : ℕ) :
    getCell (setCol df c vals) c' i = getCell df c' i := by
  by_cases hi : i < df.rows.length
  · have hi' : i < (setCol df c vals).rows.length := by
      rw [setCol_rows_length df c vals hlen]
      exact hi
    rw [getCell_of_lt _ _ hi', getCell_of_lt _ _ hi]
    have hrow : (setCol df c vals).rows[i] =
        (if c ∈ df.cols then (df.rows[i]).set (df.cols.indexOf c) (vals[i])
         else (df.rows[i]) ++ [vals[i]]) := by
      have h1 := setCol_rows_getElem df c vals hlen hi
      rw [List.getElem?_eq_getElem hi'] at h1
      exact Option.some.inj h1
    rw [hrow, setCol_cols]
    have hrl : (df.rows[i]).length = df.cols.length :=
      hwf _ (List.getElem_mem hi)
    have hidx' : df.cols.indexOf c' < df.cols.length := List.indexOf_lt_length.mpr hc'
    by_cases hm : c ∈ df.cols
    · rw [if_pos hm, if_pos hm]
      have hnei : df.cols.indexOf c ≠ df.cols.indexOf c' :=
        fun h => indexOf_ne_of_ne hm hc' hne h.symm
      have hi2 : df.cols.indexOf c' < ((df.rows[i]).set (df.cols.indexOf c)
          (vals[i])).length := by
        rw [List.length_set, hrl]
        exact hidx'
      rw [List.getD_eq_getElem?_getD, List.getElem?_eq_getElem hi2]
      simp only [Option.getD_some]
      rw [List.getElem_set_ne hnei]
      rw [List.getD_eq_getElem?_getD, List.getElem?_eq_getElem (by omega : df.cols.indexOf c' < (df.rows[i]).length)]
      rfl
    · rw [if_neg hm, if_neg hm]
      rw [List.indexOf_append_of_mem hc']
      have hlt : df.cols.indexOf c' < (df.rows[i]).length := by omega
      have hlt2 : df.cols.indexOf c' < ((df.rows[i]) ++ [vals[i]]).length := by
        simp
        omega
      rw [List.getD_eq_getElem?_getD, List.getElem?_eq_getElem hlt2]
      simp only [Option.getD_some]
      rw [List.getElem_append_left hlt]
      rw [List.getD_eq_getElem?_getD, List.getElem?_eq_getElem hlt]
      rfl
  · rw [getCell_of_ge _ _ (by rw [setCol_rows_length df c vals hlen]; omega),
      getCell_of_ge _ _ (by omega : df.rows.length ≤ i)]

theorem getCol_setCol_same (df : Table) (c : String) (vals : List Cell)
    (hwf : WF df) (hlen : vals.length = df.rows.length) :
    getCol (setCol df c vals) c = vals := by
  apply List.ext_getElem
  · rw [getCol_length, setCol_rows_length df c vals hlen, hlen]
  · intro i h1 h2
    have := getCell_setCol_same df c vals hwf hlen i
    rw [← getCol_getD] at this
    rw [List.getD_eq_getElem?_getD, List.getElem?_eq_getElem h1] at this
    rw [List.getD_eq_getElem?_getD, List.getElem?_eq_getElem h2] at this
    simpa using this

theorem getCol_setCol_other (df : Table) {c c' : String} (vals : List Cell)
    (hwf : WF df) (hlen : vals.length = df.rows.length)
    (hc' : c' ∈ df.cols) (hne : c' ≠ c) :
    getCol (setCol df c vals) c' = getCol df c' := by
  apply List.ext_getElem
  · rw [getCol_length, getCol_length, setCol_rows_length df c vals hlen]
  · intro i h1 h2
    have := getCell_setCol_other df vals hwf hlen hc' hne i
    rw [← getCol_getD, ← getCol_getD] at this
    rw [List.getD_eq_getElem?_getD, List.getElem?_eq_getElem h1] at this
    rw [List.getD_eq_getElem?_getD, List.getElem?_eq_getElem h2] at this
    simpa using this

/-! ### Support lemmas: deduplication, column drop, date conversion -/

theorem dedupFirstAux_mem {α : Type} [DecidableEq α] {a : α} :
    ∀ {n : ℕ} {l : List α}, l.length ≤ n → (a ∈ dedupFirstAux n l ↔ a ∈ l) := by
  intro n
  induction n with
  | zero =>
    intro l hl
    cases l with
    | nil => simp [dedupFirstAux]
    | cons x xs => simp at hl
  | succ n ih =>
    intro l hl
    cases l with
    | nil => simp [dedupFirstAux]
    | cons r rs =>
      have hlen : (rs.filter fun x => decide (x ≠ r)).length ≤ n := by
        have h2 := List.length_filter_le (fun x => decide (x ≠ r)) rs
        simp only [List.length_cons] at hl
        omega
      show a ∈ r :: dedupFirstAux n (rs.filter fun x => decide (x ≠ r)) ↔ _
      simp only [List.mem_cons, ih hlen, List.mem_filter, decide_eq_true_eq]
      constructor
      · rintro (rfl | ⟨h1, _⟩)
        · exact .inl rfl
        · exact .inr h1
      · rintro (rfl | h1)
        · exact .inl rfl
        · by_cases he : a = r
          · exact .inl he
          · exact .inr ⟨h1, he⟩

theorem mem_dedupFirst {α : Type} [DecidableEq α] {a : α} {l : List α} :
    a ∈ dedupFirst l ↔ a ∈ l :=
  dedupFirstAux_mem (Nat.le_refl _)

theorem dedupFirstAux_nodup {α : Type} [DecidableEq α] :
    ∀ {n : ℕ} {l : List α}, l.length ≤ n → (dedupFirstAux n l).Nodup := by
  intro n
  induction n with
  | zero =>
    intro l hl
    cases l with
    | nil => simp [dedupFirstAux]
    | cons x xs => simp at hl
  | succ n ih =>
    intro l hl
    cases l with
    | nil => simp [dedupFirstAux]
    | cons r rs =>
      have hlen : (rs.filter fun x => decide (x ≠ r)).length ≤ n := by
        have h2 := List.length_filter_le (fun x => decide (x ≠ r)) rs
        simp only [List.length_cons] at hl
        omega
      show (r :: dedupFirstAux n (rs.filter fun x => decide (x ≠ r))).Nodup
      refine List.nodup_cons.mpr ⟨?_, ih hlen⟩
      intro hmem
      rw [dedupFirstAux_mem hlen] at hmem
      have := (List.mem_filter.mp hmem).2
      simp at this

theorem dedupFirst_nodup {α : Type} [DecidableEq α] (l : List α) :
    (dedupFirst l).Nodup :=
  dedupFirstAux_nodup (Nat.le_refl _)

theorem dedupFirstAux_length_le {α : Type} [DecidableEq α] :
    ∀ {n : ℕ} {l : List α}, (dedupFirstAux n l).length ≤ l.length := by
  intro n
  induction n with
  | zero =>
    intro l
    cases l with
    | nil => simp [dedupFirstAux]
    | cons x xs => simp [dedupFirstAux]
  | succ n ih =>
    intro l
    cases l with
    | nil => simp [dedupFirstAux]
    | cons r rs =>
      show (r :: dedupFirstAux n (rs.filter fun x => decide (x ≠ r))).length ≤ _
      simp only [List.length_cons]
      have h2 := List.length_filter_le (fun x => decide (x ≠ r)) rs
      have h3 := ih (l := rs.filter fun x => decide (x ≠ r))
      omega

theorem dedupFirst_length_le {α : Type} [DecidableEq α] (l : List α) :
    (dedupFirst l).length ≤ l.length :=
  dedupFirstAux_length_le

theorem mem_dropColumns_cols {df : Table} {drops : List String} {c : String} :
    c ∈ (dropColumns df drops).cols ↔ c ∈ df.cols ∧ c ∉ drops := by
  show c ∈ df.cols.filter _ ↔ _
  rw [List.mem_filter, decide_eq_true_eq]

theorem dropColumns_rows_length (df : Table) (drops : List String) :
    (dropColumns df drops).rows.length = df.rows.length := by
  simp [dropColumns]

theorem drop_row_length (cols : List String) (drops : List String) :
    ∀ (r : Row), r.length = cols.length →
      (((cols.zip r).filter fun p => decide (p.1 ∉ drops)).map Prod.snd).length =
        (cols.filter fun c => decide (c ∉ drops)).length := by
  induction cols with
  | nil =>
    intro r hlen
    cases r with
    | nil => rfl
    | cons v rt => simp at hlen
  | cons x xs ih =>
    intro r hlen
    cases r with
    | nil => simp at hlen
    | cons v rt =>
      simp only [List.zip_cons_cons, List.filter_cons]
      by_cases hx : x ∉ drops
      · rw [if_pos (by simpa using hx), if_pos (by simpa using hx)]
        simp only [List.map_cons, List.length_cons]
        rw [ih rt (by simpa using hlen)]
      · rw [if_neg (by simpa using hx), if_neg (by simpa using hx)]
        exact ih rt (by simpa using hlen)

theorem drop_row_getD (cols : List String) (drops : List String) (c : String)
    (hcd : c ∉ drops) :
    ∀ (r : Row), r.length = cols.length → c ∈ cols →
      (((cols.zip r).filter fun p => decide (p.1 ∉ drops)).map Prod.snd).getD
          ((cols.filter fun x => decide (x ∉ drops)).indexOf c) Cell.null
        = r.getD (cols.indexOf c) Cell.null := by
  induction cols with
  | nil =>
    intro r _ hc
    cases hc
  | cons x xs ih =>
    intro r hlen hc
    cases r with
    | nil => simp at hlen
    | cons v rt =>
      simp only [List.zip_cons_cons, List.filter_cons]
      by_cases hx : x ∉ drops
      · rw [if_pos (by simpa using hx), if_pos (by simpa using hx)]
        by_cases hcx : c = x
        · subst hcx
          rw [List.indexOf_cons_self, List.indexOf_cons_self]
          rfl
        · have hxc : x ≠ c := fun h => hcx h.symm
          rw [List.indexOf_cons_ne _ hxc, List.indexOf_cons_ne _ hxc]
          simp only [List.map_cons, List.getD_cons_succ]
          exact ih rt (by simpa using hlen) (by
            rcases List.mem_cons.mp hc with h | h
            · exact absurd h hcx
            · exact h)
      · rw [if_neg (by simpa using hx), if_neg (by simpa using hx)]
        have hxd : x ∈ drops := not_not.mp hx
        have hcx : c ≠ x := fun h => hcd (h ▸ hxd)
        have hxc : x ≠ c := fun h => hcx h.symm
        rw [List.indexOf_cons_ne _ hxc]
        simp only [List.getD_cons_succ]
        exact ih rt (by simpa using hlen) (by
          rcases List.mem_cons.mp hc with h | h
          · exact absurd h hcx
          · exact h)

theorem WF_dropColumns {df : Table} (hwf : WF df) (drops : List String) :
    WF (dropColumns df drops) := by
  intro r hr
  obtain ⟨r0, hr0, rfl⟩ := List.mem_map.mp hr
  exact drop_row_length df.cols drops r0 (hwf r0 hr0)

theorem getCell_dropColumns {df : Table} {drops : List String} {c : String}
    (hwf : WF df) (hc : c ∈ df.cols) (hcd : c ∉ drops) (i : ℕ) :
    getCell (dropColumns df drops) c i = getCell df c i := by
  by_cases hi : i < df.rows.length
  · have hi' : i < (dropColumns df drops).rows.length := by
      rw [dropColumns_rows_length]
      exact hi
    rw [getCell_of_lt _ _ hi', getCell_of_lt _ _ hi]
    have hrow : (dropColumns df drops).rows[i] =
        (((df.cols.zip (df.rows[i])).filter fun p => decide (p.1 ∉ drops)).map Prod.snd) := by
      show (df.rows.map _)[i] = _
      rw [List.getElem_map]
    rw [hrow]
    exact drop_row_getD df.cols drops c hcd (df.rows[i])
      (hwf _ (List.getElem_mem hi)) hc
  · rw [getCell_of_ge _ _ (by rw [dropColumns_rows_length]; omega),
      getCell_of_ge _ _ (by omega : df.rows.length ≤ i)]

theorem getCol_dropColumns {df : Table} {drops : List String} {c : String}
    (hwf : WF df) (hc : c ∈ df.cols) (hcd : c ∉ drops) :
    getCol (dropColumns df drops) c = getCol df c := by
  apply List.ext_getElem
  · rw [getCol_length, getCol_length, dropColumns_rows_length]
  · intro i h1 h2
    have h := getCell_dropColumns hwf hc hcd i
    rw [← getCol_getD, ← getCol_getD] at h
    rw [List.getD_eq_getElem?_getD, List.getElem?_eq_getElem h1] at h
    rw [List.getD_eq_getElem?_getD, List.getElem?_eq_getElem h2] at h
    simpa using h

theorem WF_standardizeCore {df : Table} (hwf : WF df) : WF (standardizeCore df) := by
  intro r hr
  have := hwf r hr
  simpa [standardizeCore] using this

theorem WF_dedupCore {df : Table} (hwf : WF df) : WF (dedupCore df) :=
  fun r hr => hwf r (mem_dedupFirst.mp hr)

theorem getCol_dedupCore_all {df : Table} {c : String} {P : Cell → Bool}
    (h : (getCol df c).all P = true) : (getCol (dedupCore df) c).all P = true := by
  rw [List.all_eq_true] at h ⊢
  intro x hx
  obtain ⟨r, hr, rfl⟩ := List.mem_map.mp hx
  exact h _ (List.mem_map.mpr ⟨r, mem_dedupFirst.mp hr, rfl⟩)

theorem convStep_cols (t : Table) (col : String) : (convStep t col).cols = t.cols := by
  unfold convStep
  by_cases h : col ∈ t.cols
  · rw [if_pos h, setCol_cols, if_pos h]
  · rw [if_neg h]

theorem convStep_rows_length (t : Table) (col : String) :
    (convStep t col).rows.length = t.rows.length := by
  unfold convStep
  by_cases h : col ∈ t.cols
  · rw [if_pos h]
    exact setCol_rows_length _ _ _ (by rw [List.length_map, getCol_length])
  · rw [if_neg h]

theorem WF_convStep {t : Table} (col : String) (hwf : WF t) : WF (convStep t col) := by
  unfold convStep
  by_cases h : col ∈ t.cols
  · rw [if_pos h]
    exact WF_setCol _ _ hwf (by rw [List.length_map, getCol_length])
  · rw [if_neg h]
    exact hwf

theorem getCell_convStep_other {t : Table} {c col : String} (hwf : WF t)
    (hc : c ∈ t.cols) (hne : c ≠ col) (i : ℕ) :
    getCell (convStep t col) c i = getCell t c i := by
  unfold convStep
  by_cases h : col ∈ t.cols
  · rw [if_pos h]
    exact getCell_setCol_other t _ hwf (by rw [List.length_map, getCol_length]) hc hne i
  · rw [if_neg h]

theorem getCol_convStep_other {t : Table} {c col : String} (hwf : WF t)
    (hc : c ∈ t.cols) (hne : c ≠ col) :
    getCol (convStep t col) c = getCol t c := by
  unfold convStep
  by_cases h : col ∈ t.cols
  · rw [if_pos h]
    exact getCol_setCol_other t _ hwf (by rw [List.length_map, getCol_length]) hc hne
  · rw [if_neg h]

theorem convertCore_eq (df : Table) :
    convertCore df = convStep (convStep df "order_date_dateorders") "shipping_date_dateorders" := rfl

theorem convertCore_cols (df : Table) : (convertCore df).cols = df.cols := by
  rw [convertCore_eq, convStep_cols, convStep_cols]

theorem convertCore_rows_length (df : Table) :
    (convertCore df).rows.length = df.rows.length := by
  rw [convertCore_eq, convStep_rows_length, convStep_rows_length]

theorem WF_convertCore {df : Table} (hwf : WF df) : WF (convertCore df) := by
  rw [convertCore_eq]
  exact WF_convStep _ (WF_convStep _ hwf)

theorem getCell_convertCore_other {df : Table} {c : String} (hwf : WF df)
    (hc : c ∈ df.cols) (h1 : c ≠ "order_date_dateorders")
    (h2 : c ≠ "shipping_date_dateorders") (i : ℕ) :
    getCell (convertCore df) c i = getCell df c i := by
  rw [convertCore_eq]
  rw [getCell_convStep_other (WF_convStep _ hwf) (by rw [convStep_cols]; exact hc) h2 i]
  exact getCell_convStep_other hwf hc h1 i

theorem getCol_convertCore_other {df : Table} {c : String} (hwf : WF df)
    (hc : c ∈ df.cols) (h1 : c ≠ "order_date_dateorders")
    (h2 : c ≠ "shipping_date_dateorders") :
    getCol (convertCore df) c = getCol df c := by
  rw [convertCore_eq]
  rw [getCol_convStep_other (WF_convStep _ hwf) (by rw [convStep_cols]; exact hc) h2]
  exact getCol_convStep_other hwf hc h1

theorem isDateOrNull_toDatetimeCell (c : Cell) : isDateOrNull (toDatetimeCell c) = true := by
  cases c with
  | str s =>
    cases hp : parseDate s with
    | none => simp [toDatetimeCell, hp, isDateOrNull]
    | some t =>
      obtain ⟨y, m, d⟩ := t
      simp [toDatetimeCell, hp, isDateOrNull]
  | null => rfl
  | num q => rfl
  | date y m d => rfl
  | period y m => rfl

theorem getCol_convertCore_date {df : Table} (hwf : WF df)
    (hm : "order_date_dateorders" ∈ df.cols) :
    getCol (convertCore df) "order_date_dateorders" =
      (getCol df "order_date_dateorders").map toDatetimeCell := by
  rw [convertCore_eq]
  have hstep1 : getCol (convStep df "order_date_dateorders") "order_date_dateorders" =
      (getCol df "order_date_dateorders").map toDatetimeCell := by
    unfold convStep
    rw [if_pos hm]
    exact getCol_setCol_same _ _ _ hwf (by rw [List.length_map, getCol_length])
  rw [getCol_convStep_other (WF_convStep _ hwf)
    (by rw [convStep_cols]; exact hm) (by decide)]
  exact hstep1

theorem all_isDateOrNull_convertCore {df : Table} (hwf : WF df)
    (hm : "order_date_dateorders" ∈ df.cols) :
    (getCol (convertCore df) "order_date_dateorders").all isDateOrNull = true := by
  rw [getCol_convertCore_date hwf hm, List.all_eq_true]
  intro x hx
  obtain ⟨c, _, rfl⟩ := List.mem_map.mp hx
  exact isDateOrNull_toDatetimeCell c

/-! ### Support lemmas: columnwise arithmetic and the Except monad -/

theorem zipWith_getD {f : Cell → Cell → Cell} {a b : List Cell} {i : ℕ}
    (ha : i < a.length) (hb : i < b.length) :
    (List.zipWith f a b).getD i Cell.null = f (a.getD i Cell.null) (b.getD i Cell.null) := by
  rw [List.getD_eq_getElem?_getD,
    List.getElem?_eq_getElem (by rw [List.length_zipWith]; omega)]
  simp only [Option.getD_some]
  rw [List.getElem_zipWith]
  rw [List.getD_eq_getElem?_getD, List.getElem?_eq_getElem ha]
  rw [List.getD_eq_getElem?_getD, List.getElem?_eq_getElem hb]
  rfl

theorem colSub_ok {a b l : List Cell} (h : colSub a b = .ok l) :
    l = List.zipWith cellSub a b ∧ a.all isNumOrNull = true ∧ b.all isNumOrNull = true := by
  unfold colSub at h
  split at h
  · rename_i hc
    rw [Bool.and_eq_true] at hc
    exact ⟨(Except.ok.inj h).symm, hc.1, hc.2⟩
  · cases h

theorem colSub_ok_of {a b : List Cell} (ha : a.all isNumOrNull = true)
    (hb : b.all isNumOrNull = true) : colSub a b = .ok (List.zipWith cellSub a b) := by
  unfold colSub
  rw [if_pos (by rw [ha, hb]; rfl)]

theorem colDt_ok {f : Cell → Cell} {a l : List Cell} (h : colDt f a = .ok l) :
    l = a.map f ∧ a.all isDateOrNull = true := by
  unfold colDt at h
  split at h
  · rename_i hc
    exact ⟨(Except.ok.inj h).symm, hc⟩
  · cases h

theorem colDt_ok_of {f : Cell → Cell} {a : List Cell} (ha : a.all isDateOrNull = true) :
    colDt f a = .ok (a.map f) := by
  unfold colDt
  rw [if_pos ha]

theorem colProfitMargin_ok {p s l : List Cell} (h : colProfitMargin p s = .ok l) :
    l = List.zipWith (fun pc sc => if cellNeZero sc then cellDivMulRound pc sc else .num 0) p s ∧
      p.all isNumOrNull = true ∧ s.all isNumOrNull = true := by
  unfold colProfitMargin at h
  split at h
  · rename_i hc
    rw [Bool.and_eq_true] at hc
    exact ⟨(Except.ok.inj h).symm, hc.1, hc.2⟩
  · cases h

theorem colProfitMargin_ok_of {p s : List Cell} (hp : p.all isNumOrNull = true)
    (hs : s.all isNumOrNull = true) :
    colProfitMargin p s =
      .ok (List.zipWith (fun pc sc => if cellNeZero sc then cellDivMulRound pc sc else .num 0) p s) := by
  unfold colProfitMargin
  rw [if_pos (by rw [hp, hs]; rfl)]

theorem except_bind_ok {α β : Type} {e : Except String α} {f : α → Except String β}
    {v : β} (h : e >>= f = .ok v) : ∃ a, e = .ok a ∧ f a = .ok v := by
  cases he : e with
  | error ε =>
    rw [he] at h
    cases h
  | ok a =>
    rw [he] at h
    exact ⟨a, rfl, h⟩

theorem except_map_ok {α β : Type} {e : Except String α} {f : α → β} {v : β}
    (h : Except.map f e = .ok v) : ∃ a, e = .ok a ∧ v = f a := by
  cases he : e with
  | error ε =>
    rw [he] at h
    cases h
  | ok a =>
    rw [he] at h
    exact ⟨a, rfl, (Except.ok.inj h).symm⟩

theorem getCol_eq_of_cells {t u : Table} {c : String}
    (hlen : t.rows.length = u.rows.length)
    (h : ∀ i, getCell t c i = getCell u c i) : getCol t c = getCol u c := by
  apply List.ext_getElem
  · rw [getCol_length, getCol_length, hlen]
  · intro i h1 h2
    have hh := h i
    rw [← getCol_getD, ← getCol_getD] at hh
    rw [List.getD_eq_getElem?_getD, List.getElem?_eq_getElem h1] at hh
    rw [List.getD_eq_getElem?_getD, List.getElem?_eq_getElem h2] at hh
    simpa using hh

/-! ### Support lemmas: the three blocks of add_derived_features -/

theorem addShipFeature_ok {df e : Table} (hwf : WF df) (h : addShipFeature df = .ok e) :
    WF e ∧ e.rows.length = df.rows.length ∧
    (∀ c, c ∈ df.cols → c ∈ e.cols) ∧
    (∀ c, c ∈ df.cols → c ≠ "shipping_delay_days" →
      (∀ i, getCell e c i = getCell df c i) ∧ getCol e c = getCol df c) ∧
    (∀ c, c ∉ df.cols → c ≠ "shipping_delay_days" → c ∉ e.cols) := by
  unfold addShipFeature at h
  split at h
  · obtain ⟨l, hl, rfl⟩ := except_map_ok h
    obtain ⟨rfl, _, _⟩ := colSub_ok hl
    have hlen : (List.zipWith cellSub (getCol df "days_for_shipping_real")
        (getCol df "days_for_shipment_scheduled")).length = df.rows.length := by
      rw [List.length_zipWith, getCol_length, getCol_length, Nat.min_self]
    refine ⟨WF_setCol _ _ hwf hlen, setCol_rows_length _ _ _ hlen, ?_, ?_, ?_⟩
    · intro c hc
      exact mem_setCol_cols _ _ hc
    · intro c hc hne
      refine ⟨fun i => getCell_setCol_other df _ hwf hlen hc hne i, ?_⟩
      exact getCol_eq_of_cells (setCol_rows_length _ _ _ hlen)
        (fun i => getCell_setCol_other df _ hwf hlen hc hne i)
    · intro c hc hne
      exact not_mem_setCol_cols _ hc hne
  · cases h
    exact ⟨hwf, rfl, fun c hc => hc, fun c _ _ => ⟨fun _ => rfl, rfl⟩, fun c hc _ => hc⟩

theorem addProfitMargin_ok {df e : Table} (hwf : WF df) (h : addProfitMargin df = .ok e) :
    WF e ∧ e.rows.length = df.rows.length ∧
    (∀ c, c ∈ df.cols → c ∈ e.cols) ∧
    (∀ c, c ∈ df.cols → c ≠ "profit_margin_pct" →
      (∀ i, getCell e c i = getCell df c i) ∧ getCol e c = getCol df c) ∧
    (∀ c, c ∉ df.cols → c ≠ "profit_margin_pct" → c ∉ e.cols) := by
  unfold addProfitMargin at h
  split at h
  · obtain ⟨l, hl, rfl⟩ := except_map_ok h
    obtain ⟨rfl, _, _⟩ := colProfitMargin_ok hl
    have hlen : (List.zipWith (fun pc sc => if cellNeZero sc then cellDivMulRound pc sc else .num 0)
        (getCol df "order_profit_per_order") (getCol df "sales")).length = df.rows.length := by
      rw [List.length_zipWith, getCol_length, getCol_length, Nat.min_self]
    refine ⟨WF_setCol _ _ hwf hlen, setCol_rows_length _ _ _ hlen, ?_, ?_, ?_⟩
    · intro c hc
      exact mem_setCol_cols _ _ hc
    · intro c hc hne
      refine ⟨fun i => getCell_setCol_other df _ hwf hlen hc hne i, ?_⟩
      exact getCol_eq_of_cells (setCol_rows_length _ _ _ hlen)
        (fun i => getCell_setCol_other df _ hwf hlen hc hne i)
    · intro c hc hne
      exact not_mem_setCol_cols _ hc hne
  · cases h
    exact ⟨hwf, rfl, fun c hc => hc, fun c _ _ => ⟨fun _ => rfl, rfl⟩, fun c hc _ => hc⟩

theorem addDateFeatures_ok {df e : Table} (hwf : WF df) (h : addDateFeatures df = .ok e) :
    WF e ∧ e.rows.length = df.rows.length ∧
    (∀ c, c ∈ df.cols → c ∈ e.cols) ∧
    (∀ c, c ∈ df.cols → c ≠ "order_month" → c ≠ "order_year" → c ≠ "order_day_of_week" →
      (∀ i, getCell e c i = getCell df c i) ∧ getCol e c = getCol df c) ∧
    (∀ c, c ∉ df.cols → c ≠ "order_month" → c ≠ "order_year" → c ≠ "order_day_of_week" →
      c ∉ e.cols) := by
  unfold addDateFeatures at h
  split at h
  · obtain ⟨om, hom, h2⟩ := except_bind_ok h
    obtain ⟨oy, hoy, h3⟩ := except_bind_ok h2
    obtain ⟨dw, hdw, h4⟩ := except_bind_ok h3
    cases h4
    obtain ⟨hom_eq, _⟩ := colDt_ok hom
    obtain ⟨hoy_eq, _⟩ := colDt_ok hoy
    obtain ⟨hdw_eq, _⟩ := colDt_ok hdw
    have hlen1 : om.length = df.rows.length := by
      rw [hom_eq, List.length_map, getCol_length]
    have hwf1 : WF (setCol df "order_month" om) := WF_setCol _ _ hwf hlen1
    have hrl1 : (setCol df "order_month" om).rows.length = df.rows.length :=
      setCol_rows_length _ _ _ hlen1
    have hlen2 : oy.length = (setCol df "order_month" om).rows.length := by
      rw [hoy_eq, List.length_map, getCol_length]
    have hwf2 : WF (setCol (setCol df "order_month" om) "order_year" oy) :=
      WF_setCol _ _ hwf1 hlen2
    have hrl2 : (setCol (setCol df "order_month" om) "order_year" oy).rows.length =
        df.rows.length := by
      rw [setCol_rows_length _ _ _ hlen2, hrl1]
    have hlen3 : dw.length =
        (setCol (setCol df "order_month" om) "order_year" oy).rows.length := by
      rw [hdw_eq, List.length_map, getCol_length]
    refine ⟨WF_setCol _ _ hwf2 hlen3, by rw [setCol_rows_length _ _ _ hlen3, hrl2], ?_, ?_, ?_⟩
    · intro c hc
      exact mem_setCol_cols _ _ (mem_setCol_cols _ _ (mem_setCol_cols _ _ hc))
    · intro c hc h1 h2 h3
      have hc1 : c ∈ (setCol df "order_month" om).cols := mem_setCol_cols _ _ hc
      have hc2 : c ∈ (setCol (setCol df "order_month" om) "order_year" oy).cols :=
        mem_setCol_cols _ _ hc1
      have hcell : ∀ i, getCell (setCol (setCol (setCol df "order_month" om)
          "order_year" oy) "order_day_of_week" dw) c i = getCell df c i := by
        intro i
        rw [getCell_setCol_other _ _ hwf2 hlen3 hc2 h3 i]
        rw [getCell_setCol_other _ _ hwf1 hlen2 hc1 h2 i]
        exact getCell_setCol_other _ _ hwf hlen1 hc h1 i
      refine ⟨hcell, ?_⟩
      exact getCol_eq_of_cells (by rw [setCol_rows_length _ _ _ hlen3, hrl2]) hcell
    · intro c hc h1 h2 h3
      exact not_mem_setCol_cols _ (not_mem_setCol_cols _ (not_mem_setCol_cols _ hc h1) h2) h3
  · cases h
    exact ⟨hwf, rfl, fun c hc => hc, fun c _ _ _ _ => ⟨fun _ => rfl, rfl⟩,
      fun c hc _ _ _ => hc⟩

theorem except_ok_bind {α β : Type} (a : α) (f : α → Except String β) :
    (Except.ok a >>= f) = f a := rfl

theorem addShipFeature_total {df : Table}
    (ht : ("days_for_shipping_real" ∈ df.cols ∧ "days_for_shipment_scheduled" ∈ df.cols) →
      (getCol df "days_for_shipping_real").all isNumOrNull = true ∧
      (getCol df "days_for_shipment_scheduled").all isNumOrNull = true) :
    ∃ e, addShipFeature df = .ok e := by
  unfold addShipFeature
  by_cases hg : "days_for_shipping_real" ∈ df.cols ∧ "days_for_shipment_scheduled" ∈ df.cols
  · rw [if_pos hg, colSub_ok_of (ht hg).1 (ht hg).2]
    exact ⟨_, rfl⟩
  · rw [if_neg hg]
    exact ⟨df, rfl⟩

theorem addProfitMargin_total {df : Table}
    (ht : ("order_profit_per_order" ∈ df.cols ∧ "sales" ∈ df.cols) →
      (getCol df "order_profit_per_order").all isNumOrNull = true ∧
      (getCol df "sales").all isNumOrNull = true) :
    ∃ e, addProfitMargin df = .ok e := by
  unfold addProfitMargin
  by_cases hg : "order_profit_per_order" ∈ df.cols ∧ "sales" ∈ df.cols
  · rw [if_pos hg, colProfitMargin_ok_of (ht hg).1 (ht hg).2]
    exact ⟨_, rfl⟩
  · rw [if_neg hg]
    exact ⟨df, rfl⟩

theorem addDateFeatures_total {df : Table} (hwf : WF df)
    (ht : "order_date_dateorders" ∈ df.cols →
      (getCol df "order_date_dateorders").all isDateOrNull = true) :
    ∃ e, addDateFeatures df = .ok e := by
  unfold addDateFeatures
  by_cases hg : "order_date_dateorders" ∈ df.cols
  · rw [if_pos hg]
    have h1 := ht hg
    have hlenOM : ((getCol df "order_date_dateorders").map toPeriodM).length =
        df.rows.length := by
      rw [List.length_map, getCol_length]
    have hwf1 : WF (setCol df "order_month"
        ((getCol df "order_date_dateorders").map toPeriodM)) :=
      WF_setCol _ _ hwf hlenOM
    have e2 : getCol (setCol df "order_month"
        ((getCol df "order_date_dateorders").map toPeriodM)) "order_date_dateorders" =
        getCol df "order_date_dateorders" :=
      getCol_setCol_other df _ hwf hlenOM hg (by decide)
    have hlenOY : ((getCol df "order_date_dateorders").map dateYear).length =
        (setCol df "order_month"
          ((getCol df "order_date_dateorders").map toPeriodM)).rows.length := by
      rw [List.length_map, getCol_length, setCol_rows_length _ _ _ hlenOM]
    have e3 : getCol (setCol (setCol df "order_month"
        ((getCol df "order_date_dateorders").map toPeriodM)) "order_year"
          ((getCol df "order_date_dateorders").map dateYear)) "order_date_dateorders" =
        getCol df "order_date_dateorders" := by
      rw [getCol_setCol_other _ _ hwf1 hlenOY (mem_setCol_cols _ _ hg) (by decide), e2]
    refine ⟨setCol (setCol (setCol df "order_month"
      ((getCol df "order_date_dateorders").map toPeriodM)) "order_year"
      ((getCol df "order_date_dateorders").map dateYear)) "order_day_of_week"
      ((getCol df "order_date_dateorders").map dayNameCell), ?_⟩
    simp only [colDt_ok_of h1, except_ok_bind]
    rw [e2]
    simp only [colDt_ok_of h1, except_ok_bind]
    rw [e3]
    simp only [colDt_ok_of h1, except_ok_bind]
  · rw [if_neg hg]
    exact ⟨df, rfl⟩

theorem add_derived_total {df : Table} (hwf : WF df)
    (h1 : ("days_for_shipping_real" ∈ df.cols ∧ "days_for_shipment_scheduled" ∈ df.cols) →
      (getCol df "days_for_shipping_real").all isNumOrNull = true ∧
      (getCol df "days_for_shipment_scheduled").all isNumOrNull = true)
    (h2 : "order_date_dateorders" ∈ df.cols →
      (getCol df "order_date_dateorders").all isDateOrNull = true)
    (h3 : ("order_profit_per_order" ∈ df.cols ∧ "sales" ∈ df.cols) →
      (getCol df "order_profit_per_order").all isNumOrNull = true ∧
      (getCol df "sales").all isNumOrNull = true) :
    ∃ e, add_derived_features df = .ok e := by
  obtain ⟨d1, hd1⟩ := addShipFeature_total h1
  obtain ⟨hwf1, _, hmem1, hfr1, hnm1⟩ := addShipFeature_ok hwf hd1
  have hback1 : ∀ c, c ≠ "shipping_delay_days" → c ∈ d1.cols → c ∈ df.cols := by
    intro c hne hc
    by_contra hnc
    exact hnm1 c hnc hne hc
  obtain ⟨d2, hd2⟩ := addDateFeatures_total hwf1 (by
    intro hg
    have hdf : "order_date_dateorders" ∈ df.cols := hback1 _ (by decide) hg
    rw [(hfr1 _ hdf (by decide)).2]
    exact h2 hdf)
  obtain ⟨hwf2, _, hmem2, hfr2, hnm2⟩ := addDateFeatures_ok hwf1 hd2
  have hback2 : ∀ c, c ≠ "order_month" → c ≠ "order_year" → c ≠ "order_day_of_week" →
      c ∈ d2.cols → c ∈ d1.cols := by
    intro c ha hb hc hmem
    by_contra hnc
    exact hnm2 c hnc ha hb hc hmem
  obtain ⟨e, he⟩ := @addProfitMargin_total d2 (by
    intro hg
    have hp1 : "order_profit_per_order" ∈ d1.cols :=
      hback2 _ (by decide) (by decide) (by decide) hg.1
    have hs1 : "sales" ∈ d1.cols :=
      hback2 _ (by decide) (by decide) (by decide) hg.2
    have hp0 : "order_profit_per_order" ∈ df.cols := hback1 _ (by decide) hp1
    have hs0 : "sales" ∈ df.cols := hback1 _ (by decide) hs1
    rw [(hfr2 _ hp1 (by decide) (by decide) (by decide)).2]
    rw [(hfr2 _ hs1 (by decide) (by decide) (by decide)).2]
    rw [(hfr1 _ hp0 (by decide)).2, (hfr1 _ hs0 (by decide)).2]
    exact h3 ⟨hp0, hs0⟩)
  refine ⟨e, ?_⟩
  unfold add_derived_features
  simp only [hd1, except_ok_bind, hd2]
  exact he

theorem add_derived_frame {df e : Table} (hwf : WF df)
    (h : add_derived_features df = .ok e) :
    WF e ∧ e.rows.length = df.rows.length ∧
    (∀ c, c ∈ df.cols → c ∉ ["shipping_delay_days", "order_month", "order_year",
        "order_day_of_week", "profit_margin_pct"] →
      (c ∈ e.cols ∧ ∀ i, getCell e c i = getCell df c i)) ∧
    (∀ c, c ∉ df.cols → c ∉ ["shipping_delay_days", "order_month", "order_year",
        "order_day_of_week", "profit_margin_pct"] → c ∉ e.cols) := by
  unfold add_derived_features at h
  obtain ⟨d1, hd1, h2⟩ := except_bind_ok h
  obtain ⟨d2, hd2, h3⟩ := except_bind_ok h2
  obtain ⟨hwf1, hrl1, hmem1, hfr1, hnm1⟩ := addShipFeature_ok hwf hd1
  obtain ⟨hwf2, hrl2, hmem2, hfr2, hnm2⟩ := addDateFeatures_ok hwf1 hd2
  obtain ⟨hwf3, hrl3, hmem3, hfr3, hnm3⟩ := addProfitMargin_ok hwf2 h3
  refine ⟨hwf3, by rw [hrl3, hrl2, hrl1], ?_, ?_⟩
  · intro c hc hnames
    simp only [List.mem_cons, List.not_mem_nil, or_false] at hnames
    push_neg at hnames
    obtain ⟨n1, n2, n3, n4, n5⟩ := hnames
    have hc1 : c ∈ d1.cols := hmem1 c hc
    have hc2 : c ∈ d2.cols := hmem2 c hc1
    refine ⟨hmem3 c hc2, fun i => ?_⟩
    rw [(hfr3 c hc2 n5).1 i, (hfr2 c hc1 n2 n3 n4).1 i, (hfr1 c hc n1).1 i]
  · intro c hc hnames
    simp only [List.mem_cons, List.not_mem_nil, or_false] at hnames
    push_neg at hnames
    obtain ⟨n1, n2, n3, n4, n5⟩ := hnames
    exact hnm3 c (hnm2 c (hnm1 c hc n1) n2 n3 n4) n5

theorem standardizeCore_rows_length (df : Table) :
    (standardizeCore df).rows.length = df.rows.length := rfl

theorem dropCore_rows_length (df : Table) :
    (dropCore df).rows.length = df.rows.length :=
  dropColumns_rows_length df _

theorem dedupCore_cols (df : Table) : (dedupCore df).cols = df.cols := rfl

theorem dedupCore_rows (df : Table) : (dedupCore df).rows = dedupFirst df.rows := rfl

theorem dropCore_mem_cols {df : Table} {X : String} (hX : X ∉ cols_to_drop) :
    X ∈ (dropCore df).cols ↔ X ∈ df.cols := by
  unfold dropCore
  rw [mem_dropColumns_cols]
  constructor
  · exact fun h => h.1
  · intro h
    exact ⟨h, fun hm => hX (List.mem_filter.mp hm).1⟩

theorem dropCore_getCol {df : Table} {X : String} (hwf : WF df) (hmem : X ∈ df.cols)
    (hX : X ∉ cols_to_drop) : getCol (dropCore df) X = getCol df X := by
  unfold dropCore
  exact getCol_dropColumns hwf hmem (fun hm => hX (List.mem_filter.mp hm).1)

theorem dropCore_pii (df : Table) : ∀ c ∈ cols_to_drop, c ∉ (dropCore df).cols := by
  intro c hc hmem
  unfold dropCore at hmem
  have h2 := mem_dropColumns_cols.mp hmem
  exact h2.2 (List.mem_filter.mpr ⟨hc, by simpa using h2.1⟩)

/-- Columns that are neither dropped nor date-converted pass unchanged from
the standardized table to the dedup-stage table. -/
theorem stage_transfer {df : Table} (hwf : WF df) {X : String}
    (hX : X ∉ cols_to_drop) (h1 : X ≠ "order_date_dateorders")
    (h2 : X ≠ "shipping_date_dateorders") (hmem : X ∈ df.cols) :
    X ∈ (convertCore (dropCore df)).cols ∧
      getCol (convertCore (dropCore df)) X = getCol df X := by
  have hwf2 : WF (dropCore df) := WF_dropColumns hwf _
  have hm2 : X ∈ (dropCore df).cols := (dropCore_mem_cols hX).mpr hmem
  have hg2 : getCol (dropCore df) X = getCol df X := dropCore_getCol hwf hmem hX
  refine ⟨?_, ?_⟩
  · rw [convertCore_cols]
    exact hm2
  · rw [getCol_convertCore_other hwf2 hm2 h1 h2, hg2]

theorem stage_mem_back {df : Table} {X : String} (hX : X ∉ cols_to_drop)
    (hmem : X ∈ (convertCore (dropCore df)).cols) : X ∈ df.cols := by
  rw [convertCore_cols] at hmem
  exact (dropCore_mem_cols hX).mp hmem

theorem remove_duplicates_eq (df : Table) :
    remove_duplicates df =
      if df.rows.length = 0 then .error "ZeroDivisionError: division by zero"
      else .ok (dedupCore df) := rfl

/-- Shared helper: the profit-margin block of `add_derived_features`,
rowwise. -/
theorem add_derived_profit_margin {df e : Table} (hwf : WF df)
    (hp : "order_profit_per_order" ∈ df.cols) (hs : "sales" ∈ df.cols)
    (h : add_derived_features df = .ok e) :
    ∀ i, i < e.rows.length →
      (getCell e "sales" i = Cell.num 0 → getCell e "profit_margin_pct" i = Cell.num 0) ∧
      (∀ a q : ℚ, getCell e "order_profit_per_order" i = Cell.num a →
        getCell e "sales" i = Cell.num q → q ≠ 0 →
        getCell e "profit_margin_pct" i = Cell.num (round2 (a / q * 100))) := by
  unfold add_derived_features at h
  obtain ⟨d1, hd1, h2⟩ := except_bind_ok h
  obtain ⟨d2, hd2, h3⟩ := except_bind_ok h2
  obtain ⟨hwf1, hrl1, hmem1, hfr1, hx1⟩ := addShipFeature_ok hwf hd1
  obtain ⟨hwf2, hrl2, hmem2, hfr2, hx2⟩ := addDateFeatures_ok hwf1 hd2
  have hp2 : "order_profit_per_order" ∈ d2.cols := hmem2 _ (hmem1 _ hp)
  have hs2 : "sales" ∈ d2.cols := hmem2 _ (hmem1 _ hs)
  unfold addProfitMargin at h3
  rw [if_pos ⟨hp2, hs2⟩] at h3
  obtain ⟨pm, hpm, rfl⟩ := except_map_ok h3
  obtain ⟨hpm_eq, hT1, hT2⟩ := colProfitMargin_ok hpm
  have hlen : pm.length = d2.rows.length := by
    rw [hpm_eq, List.length_zipWith, getCol_length, getCol_length, Nat.min_self]
  have herows : (setCol d2 "profit_margin_pct" pm).rows.length = d2.rows.length :=
    setCol_rows_length _ _ _ hlen
  intro i hi
  have hi2 : i < d2.rows.length := by rw [herows] at hi; exact hi
  have hpmp : getCell (setCol d2 "profit_margin_pct" pm) "profit_margin_pct" i =
      pm.getD i Cell.null :=
    getCell_setCol_same d2 _ pm hwf2 hlen i
  have hsc : getCell (setCol d2 "profit_margin_pct" pm) "sales" i =
      getCell d2 "sales" i :=
    getCell_setCol_other d2 pm hwf2 hlen hs2 (by decide) i
  have hpc : getCell (setCol d2 "profit_margin_pct" pm) "order_profit_per_order" i =
      getCell d2 "order_profit_per_order" i :=
    getCell_setCol_other d2 pm hwf2 hlen hp2 (by decide) i
  have hval : pm.getD i Cell.null =
      (if cellNeZero (getCell d2 "sales" i) then
        cellDivMulRound (getCell d2 "order_profit_per_order" i) (getCell d2 "sales" i)
      else Cell.num 0) := by
    rw [hpm_eq, zipWith_getD (by rw [getCol_length]; exact hi2)
      (by rw [getCol_length]; exact hi2), getCol_getD, getCol_getD]
  constructor
  · intro hz
    rw [hsc] at hz
    rw [hpmp, hval, hz]
    simp [cellNeZero]
  · intro a q ha hq hne
    rw [hpc] at ha
    rw [hsc] at hq
    rw [hpmp, hval, ha, hq]
    rw [show cellNeZero (Cell.num q) = true from by simp [cellNeZero, hne]]
    simp only [if_true]
    show (if q = 0 then Cell.null else Cell.num (round2 (a / q * 100))) =
      Cell.num (round2 (a / q * 100))
    rw [if_neg hne]

/-! ### Support lemmas: feature-engineering blocks -/

/-- C10: `handle_missing_values` is a pure diagnostic: for every input table
it returns its input unchanged — same columns, same rows, same cells —
imputing nothing and dropping nothing. -/
theorem handle_missing_values_pure (df : Table) : handle_missing_values df = .ok df := rfl

/-- C7: whatever table `remove_duplicates` returns has no two exactly equal
rows, and no more rows than its input. -/
theorem remove_duplicates_nodup_le {df d : Table} (h : remove_duplicates df = .ok d) :
    d.rows.Nodup ∧ d.rows.length ≤ df.rows.length := by
  rw [remove_duplicates_eq] at h
  split at h
  · cases h
  · have hd : d = dedupCore df := (Except.ok.inj h).symm
    subst hd
    exact ⟨dedupFirst_nodup df.rows, dedupFirst_length_le df.rows⟩

/-- Witness for C7 at a concrete two-row table with an exact duplicate. -/
theorem remove_duplicates_nodup_le_witness :
    (Table.mk ["sales"] [[Cell.num 1]]).rows.Nodup ∧
      (Table.mk ["sales"] [[Cell.num 1]]).rows.length ≤
        (Table.mk ["sales"] [[Cell.num 1], [Cell.num 1]]).rows.length :=
  remove_duplicates_nodup_le (by rfl)

/-- C6: the table returned by `drop_redundant_columns` contains none of the
five PII column names, whether or not they were present in the input; in
particular, whatever the original casing and spacing of the names, running
`standardize_columns` first and then `drop_redundant_columns` leaves none
of the five names either. -/
theorem drop_redundant_columns_pii {df d : Table} (h : drop_redundant_columns df = .ok d) :
    (∀ c ∈ cols_to_drop, c ∉ d.cols) ∧
    (∀ g s dd : Table, standardize_columns g = .ok s → drop_redundant_columns s = .ok dd →
      ∀ c ∈ cols_to_drop, c ∉ dd.cols) := by
  have hd : d = dropCore df := (Except.ok.inj h).symm
  subst hd
  refine ⟨dropCore_pii df, ?_⟩
  intro g s dd _ hdd
  have hdd2 : dd = dropCore s := (Except.ok.inj hdd).symm
  subst hdd2
  exact dropCore_pii s

/-- Witness for C6: a raw PII column and one in original casing/spacing
(`Customer Fname`, standardized first) are both gone after the drop. -/
theorem drop_redundant_columns_pii_witness :
    ("customer_email" : String) ∉ (Table.mk ["sales"] ([] : List Row)).cols ∧
    ("customer_fname" : String) ∉ (Table.mk ["sales"] ([] : List Row)).cols :=
  ⟨(@drop_redundant_columns_pii (Table.mk ["customer_email", "sales"] [])
      (Table.mk ["sales"] []) (by rfl)).1 "customer_email" (by decide),
   (@drop_redundant_columns_pii (Table.mk ["customer_email", "sales"] [])
      (Table.mk ["sales"] []) (by rfl)).2
     (Table.mk ["Customer Fname", "sales"] []) (Table.mk ["customer_fname", "sales"] [])
     (Table.mk ["sales"] []) (by rfl) (by rfl) "customer_fname" (by decide)⟩

/-- C2 counterexample: `remove_duplicates` is not total — on a table with
zero rows its report computes `removed/initial_rows` and Python raises
ZeroDivisionError. -/
theorem remove_duplicates_empty_error :
    remove_duplicates (Table.mk ["sales"] []) =
      .error "ZeroDivisionError: division by zero" := rfl

/-- C2 (amended): `standardize_columns`, `drop_redundant_columns`,
`convert_date_columns` and `handle_missing_values` are total on every input
table (silently skipping absent columns); `remove_duplicates` is total
exactly on tables with at least one row; `add_derived_features` is total on
every well-formed table whose present source columns carry values of the
expected kind (numeric for the shipping-day and profit/sales inputs,
datetime-or-null for the order date). -/
theorem cleaning_pipeline_totality :
    (∀ df : Table, standardize_columns df = .ok (standardizeCore df)) ∧
    (∀ df : Table, drop_redundant_columns df = .ok (dropCore df)) ∧
    (∀ df : Table, convert_date_columns df = .ok (convertCore df)) ∧
    (∀ df : Table, handle_missing_values df = .ok df) ∧
    (∀ df : Table, df.rows ≠ [] → remove_duplicates df = .ok (dedupCore df)) ∧
    (∀ df : Table, df.rows = [] →
      remove_duplicates df = .error "ZeroDivisionError: division by zero") ∧
    (∀ df : Table, WF df →
      (("days_for_shipping_real" ∈ df.cols ∧ "days_for_shipment_scheduled" ∈ df.cols) →
        (getCol df "days_for_shipping_real").all isNumOrNull = true ∧
        (getCol df "days_for_shipment_scheduled").all isNumOrNull = true) →
      ("order_date_dateorders" ∈ df.cols →
        (getCol df "order_date_dateorders").all isDateOrNull = true) →
      (("order_profit_per_order" ∈ df.cols ∧ "sales" ∈ df.cols) →
        (getCol df "order_profit_per_order").all isNumOrNull = true ∧
        (getCol df "sales").all isNumOrNull = true) →
      ∃ e, add_derived_features df = .ok e) := by
  refine ⟨fun _ => rfl, fun _ => rfl, fun _ => rfl, fun _ => rfl, ?_, ?_, ?_⟩
  · intro df hne
    rw [remove_duplicates_eq, if_neg (by simpa using hne)]
  · intro df he
    rw [remove_duplicates_eq, if_pos (by simpa using congrArg List.length he)]
  · intro df hwf h1 h2 h3
    exact add_derived_total hwf h1 h2 h3

/-- Witness for C2 (amended), applied at concrete one-row tables. -/
theorem cleaning_pipeline_totality_witness :
    remove_duplicates (Table.mk ["sales"] [[Cell.num 1]]) =
      .ok (dedupCore (Table.mk ["sales"] [[Cell.num 1]])) ∧
    (∃ e, add_derived_features (Table.mk ["sales"] [[Cell.num 1]]) = .ok e) :=
  ⟨cleaning_pipeline_totality.2.2.2.2.1 _ (by decide),
   cleaning_pipeline_totality.2.2.2.2.2.2 _ (by decide) (by decide) (by decide) (by decide)⟩

/-- C4 counterexample: on the column name `a.b`, `standardize_columns`
produces `a_b` (period replaced by underscore) while the claim — periods
stripped, i.e. deleted — demands `ab`. -/
theorem standardize_period_counterexample :
    standardize_columns (Table.mk ["a.b"] []) = .ok (Table.mk ["a_b"] []) ∧
    specCleanName "a.b" = "ab" ∧ ("a_b" : String) ≠ "ab" :=
  ⟨rfl, rfl, by decide⟩

/-- C4 (amended): every output column name of `standardize_columns` is the
input name trimmed, lowercased, with spaces replaced by underscores,
parentheses deleted and periods replaced by underscores; consequently no
output name contains a space, a parenthesis, a period, or an uppercase
letter. -/
theorem standardize_columns_cleans {df d : Table} (h : standardize_columns df = .ok d) :
    d.cols = df.cols.map cleanName ∧
    ∀ n ∈ d.cols, ∀ ch ∈ n.data,
      ch ≠ ' ' ∧ ch ≠ '(' ∧ ch ≠ ')' ∧ ch ≠ '.' ∧ ch.isUpper = false := by
  have hd : d = standardizeCore df := (Except.ok.inj h).symm
  subst hd
  refine ⟨rfl, ?_⟩
  intro n hn ch hch
  obtain ⟨s, _, rfl⟩ := List.mem_map.mp hn
  exact cleanChars_props hch

/-- Witness for C4 (amended) on the column name `A.B (x)`. -/
theorem standardize_columns_cleans_witness :
    (Table.mk ["a_b_x"] ([] : List Row)).cols =
      (Table.mk ["A.B (x)"] ([] : List Row)).cols.map cleanName ∧
    (('_' : Char) ≠ ' ' ∧ '_' ≠ '(' ∧ '_' ≠ ')' ∧ '_' ≠ '.' ∧ ('_' : Char).isUpper = false) :=
  ⟨(@standardize_columns_cleans (Table.mk ["A.B (x)"] [])
      (Table.mk ["a_b_x"] []) (by rfl)).1,
   (@standardize_columns_cleans (Table.mk ["A.B (x)"] [])
      (Table.mk ["a_b_x"] []) (by rfl)).2
     "a_b_x" (by decide) '_' (by decide)⟩

/-- C5 counterexample: `standardize_columns` is not idempotent. On the
column name `(<tab>a`, the first pass deletes the parenthesis and exposes a
leading tab that only the second pass strips: one pass gives `<tab>a`, two
passes give `a`. -/
theorem standardize_not_idempotent :
    standardize_columns (Table.mk ["(\ta"] []) = .ok (Table.mk ["\ta"] []) ∧
    standardize_columns (Table.mk ["\ta"] []) = .ok (Table.mk ["a"] []) ∧
    ("\ta" : String) ≠ "a" :=
  ⟨rfl, rfl, by decide⟩

/-- C5 (amended): `standardize_columns` is idempotent on every table whose
column names contain no whitespace characters other than the space — the
counterexample needs a non-space whitespace character hidden behind a
deleted parenthesis. -/
theorem standardize_columns_idempotent {df d1 d2 : Table}
    (hws : ∀ n ∈ df.cols, ∀ ch ∈ n.data, pyIsSpace ch = true → ch = ' ')
    (h1 : standardize_columns df = .ok d1) (h2 : standardize_columns d1 = .ok d2) :
    d2.cols = d1.cols := by
  have hd1 : d1 = standardizeCore df := (Except.ok.inj h1).symm
  subst hd1
  have hd2 : d2 = standardizeCore (standardizeCore df) := (Except.ok.inj h2).symm
  subst hd2
  show (df.cols.map cleanName).map cleanName = df.cols.map cleanName
  rw [List.map_map]
  apply List.map_congr_left
  intro s hs
  exact cleanName_idem (hws s hs)

/-- Witness for C5 (amended) on the column name `Order Id`. -/
theorem standardize_columns_idempotent_witness :
    (Table.mk ["order_id"] ([] : List Row)).cols = (Table.mk ["order_id"] ([] : List Row)).cols :=
  @standardize_columns_idempotent (Table.mk ["Order Id"] [])
    (Table.mk ["order_id"] []) (Table.mk ["order_id"] [])
    (by decide) (by rfl) (by rfl)

/-- C1: when both `order_profit_per_order` and `sales` exist,
`add_derived_features` sets `profit_margin_pct` to 0 in every row whose
sales value is the number 0, and to `round(profit/sales*100, 2)` in every
row whose sales value is a nonzero number. -/
theorem profit_margin_pct_correct {df e : Table} (hwf : WF df)
    (hp : "order_profit_per_order" ∈ df.cols) (hs : "sales" ∈ df.cols)
    (h : add_derived_features df = .ok e) :
    ∀ i, i < e.rows.length →
      (getCell e "sales" i = Cell.num 0 → getCell e "profit_margin_pct" i = Cell.num 0) ∧
      (∀ a q : ℚ, getCell e "order_profit_per_order" i = Cell.num a →
        getCell e "sales" i = Cell.num q → q ≠ 0 →
        getCell e "profit_margin_pct" i = Cell.num (round2 (a / q * 100))) :=
  add_derived_profit_margin hwf hp hs h

unseal Rat.mul Rat.inv Rat.add Rat.sub in
/-- Witness for C1 on a two-row table: a zero-sales row and a row with
sales 10 and profit 5. -/
theorem profit_margin_pct_correct_witness :
    getCell (Table.mk ["sales", "order_profit_per_order", "profit_margin_pct"]
        [[Cell.num 0, Cell.num 50, Cell.num 0], [Cell.num 10, Cell.num 5, Cell.num 50]])
      "profit_margin_pct" 0 = Cell.num 0 ∧
    getCell (Table.mk ["sales", "order_profit_per_order", "profit_margin_pct"]
        [[Cell.num 0, Cell.num 50, Cell.num 0], [Cell.num 10, Cell.num 5, Cell.num 50]])
      "profit_margin_pct" 1 = Cell.num (round2 (5 / 10 * 100)) :=
  ⟨(@profit_margin_pct_correct (Table.mk ["sales", "order_profit_per_order"]
      [[Cell.num 0, Cell.num 50], [Cell.num 10, Cell.num 5]])
      (Table.mk ["sales", "order_profit_per_order", "profit_margin_pct"]
        [[Cell.num 0, Cell.num 50, Cell.num 0], [Cell.num 10, Cell.num 5, Cell.num 50]])
      (by decide) (by decide) (by decide) (by rfl) 0 (by decide)).1 (by decide),
   (@profit_margin_pct_correct (Table.mk ["sales", "order_profit_per_order"]
      [[Cell.num 0, Cell.num 50], [Cell.num 10, Cell.num 5]])
      (Table.mk ["sales", "order_profit_per_order", "profit_margin_pct"]
        [[Cell.num 0, Cell.num 50, Cell.num 0], [Cell.num 10, Cell.num 5, Cell.num 50]])
      (by decide) (by decide) (by decide) (by rfl) 1 (by decide)).2 5 10
      (by decide) (by decide) (by decide)⟩

/-- C8: when both shipping-day columns exist, `add_derived_features` sets
`shipping_delay_days` to actual minus scheduled in every row where both
source values are (non-null) numbers. -/
theorem shipping_delay_correct {df e : Table} (hwf : WF df)
    (h1 : "days_for_shipping_real" ∈ df.cols)
    (h2 : "days_for_shipment_scheduled" ∈ df.cols)
    (h : add_derived_features df = .ok e) :
    ∀ i, i < df.rows.length → ∀ x y : ℚ,
      getCell df "days_for_shipping_real" i = Cell.num x →
      getCell df "days_for_shipment_scheduled" i = Cell.num y →
      getCell e "shipping_delay_days" i = Cell.num (x - y) := by
  unfold add_derived_features at h
  obtain ⟨d1, hd1, hh2⟩ := except_bind_ok h
  obtain ⟨d2, hd2, hh3⟩ := except_bind_ok hh2
  unfold addShipFeature at hd1
  rw [if_pos ⟨h1, h2⟩] at hd1
  obtain ⟨delay, hdl, rfl⟩ := except_map_ok hd1
  obtain ⟨hdl_eq, hA, hB⟩ := colSub_ok hdl
  have hlen : delay.length = df.rows.length := by
    rw [hdl_eq, List.length_zipWith, getCol_length, getCol_length, Nat.min_self]
  have hwf1 : WF (setCol df "shipping_delay_days" delay) := WF_setCol _ _ hwf hlen
  obtain ⟨hwf2, hrl2, hmem2, hfr2, hz2⟩ := addDateFeatures_ok hwf1 hd2
  obtain ⟨hwf3, hrl3, hmem3, hfr3, hz3⟩ := addProfitMargin_ok hwf2 hh3
  intro i hi x y hx hy
  have hsd1 : getCell (setCol df "shipping_delay_days" delay) "shipping_delay_days" i =
      delay.getD i Cell.null :=
    getCell_setCol_same df _ delay hwf hlen i
  have hmemd1 : "shipping_delay_days" ∈ (setCol df "shipping_delay_days" delay).cols :=
    mem_setCol_self df _ delay
  have hmemd2 : "shipping_delay_days" ∈ d2.cols := hmem2 _ hmemd1
  have hval : delay.getD i Cell.null = Cell.num (x - y) := by
    rw [hdl_eq, zipWith_getD (by rw [getCol_length]; exact hi)
      (by rw [getCol_length]; exact hi), getCol_getD, getCol_getD, hx, hy]
    rfl
  rw [(hfr3 _ hmemd2 (by decide)).1 i,
    (hfr2 _ hmemd1 (by decide) (by decide) (by decide)).1 i, hsd1, hval]

unseal Rat.mul Rat.inv Rat.add Rat.sub in
/-- Witness for C8 on a one-row table with 5 actual and 3 scheduled days. -/
theorem shipping_delay_correct_witness :
    getCell (Table.mk ["days_for_shipping_real", "days_for_shipment_scheduled",
        "shipping_delay_days"] [[Cell.num 5, Cell.num 3, Cell.num 2]])
      "shipping_delay_days" 0 = Cell.num (5 - 3) :=
  @shipping_delay_correct (Table.mk ["days_for_shipping_real",
      "days_for_shipment_scheduled"] [[Cell.num 5, Cell.num 3]])
    (Table.mk ["days_for_shipping_real", "days_for_shipment_scheduled",
      "shipping_delay_days"] [[Cell.num 5, Cell.num 3, Cell.num 2]])
    (by decide) (by decide) (by decide) (by rfl) 0 (by decide) 5 3
    (by decide) (by decide)

/-- C3 (amended): for every well-formed 10-row loaded table whose
standardized columns include numeric `sales` and `order_profit_per_order`
(and, when present, numeric shipping-day columns), with some zero-sales /
profit-50 row, and which still has 8 distinct rows at the deduplication
stage (after PII columns are dropped and dates converted — the claim
measured duplicates on the loaded table, which the pipeline can merge
further), the full pipeline succeeds and yields exactly 8 rows, no PII
column, and `profit_margin_pct` 0 on every (and some) zero-sales row. -/
theorem pipeline_scenario {df : Table} (hwf : WF df)
    (h10 : df.rows.length = 10)
    (_hpii : ∀ c ∈ cols_to_drop, c ∈ (standardizeCore df).cols)
    (hs : "sales" ∈ (standardizeCore df).cols)
    (hp : "order_profit_per_order" ∈ (standardizeCore df).cols)
    (hsT : (getCol (standardizeCore df) "sales").all isNumOrNull = true)
    (hpT : (getCol (standardizeCore df) "order_profit_per_order").all isNumOrNull = true)
    (hshipT : ("days_for_shipping_real" ∈ (standardizeCore df).cols ∧
        "days_for_shipment_scheduled" ∈ (standardizeCore df).cols) →
      (getCol (standardizeCore df) "days_for_shipping_real").all isNumOrNull = true ∧
      (getCol (standardizeCore df) "days_for_shipment_scheduled").all isNumOrNull = true)
    (hded : (dedupFirst (convertCore (dropCore (standardizeCore df))).rows).length = 8)
    (hzero : ∃ i, i < (convertCore (dropCore (standardizeCore df))).rows.length ∧
      getCell (convertCore (dropCore (standardizeCore df))) "sales" i = Cell.num 0 ∧
      getCell (convertCore (dropCore (standardizeCore df))) "order_profit_per_order" i =
        Cell.num 50) :
    ∃ T, run_full_cleaning_pipeline df = .ok T ∧
      T.rows.length = 8 ∧
      (∀ c ∈ cols_to_drop, c ∉ T.cols) ∧
      (∀ j, j < T.rows.length → getCell T "sales" j = Cell.num 0 →
        getCell T "profit_margin_pct" j = Cell.num 0) ∧
      (∃ j, j < T.rows.length ∧ getCell T "sales" j = Cell.num 0 ∧
        getCell T "profit_margin_pct" j = Cell.num 0) := by
  have hwfs : WF (standardizeCore df) := WF_standardizeCore hwf
  have hwf2 : WF (dropCore (standardizeCore df)) := WF_dropColumns hwfs _
  have hwf3 : WF (convertCore (dropCore (standardizeCore df))) := WF_convertCore hwf2
  have hwf5 : WF (dedupCore (convertCore (dropCore (standardizeCore df)))) :=
    WF_dedupCore hwf3
  obtain ⟨hsm3, hsg3⟩ := stage_transfer hwfs (by decide) (by decide) (by decide) hs
  obtain ⟨hpm3, hpg3⟩ := stage_transfer hwfs (by decide) (by decide) (by decide) hp
  have hsm5 : "sales" ∈ (dedupCore (convertCore (dropCore (standardizeCore df)))).cols := by
    rw [dedupCore_cols]
    exact hsm3
  have hpm5 : "order_profit_per_order" ∈
      (dedupCore (convertCore (dropCore (standardizeCore df)))).cols := by
    rw [dedupCore_cols]
    exact hpm3
  obtain ⟨T, hT⟩ := add_derived_total hwf5
    (by
      intro hg
      obtain ⟨hga, hgb⟩ := hg
      rw [dedupCore_cols] at hga hgb
      have hsa : "days_for_shipping_real" ∈ (standardizeCore df).cols :=
        stage_mem_back (by decide) hga
      have hsb : "days_for_shipment_scheduled" ∈ (standardizeCore df).cols :=
        stage_mem_back (by decide) hgb
      obtain ⟨hta, htb⟩ := hshipT ⟨hsa, hsb⟩
      obtain ⟨_, hta3⟩ := stage_transfer hwfs (by decide) (by decide) (by decide) hsa
      obtain ⟨_, htb3⟩ := stage_transfer hwfs (by decide) (by decide) (by decide) hsb
      constructor
      · exact getCol_dedupCore_all (by rw [hta3]; exact hta)
      · exact getCol_dedupCore_all (by rw [htb3]; exact htb))
    (by
      intro hg
      rw [dedupCore_cols, convertCore_cols] at hg
      exact getCol_dedupCore_all (all_isDateOrNull_convertCore hwf2 hg))
    (by
      intro _
      constructor
      · exact getCol_dedupCore_all (by rw [hpg3]; exact hpT)
      · exact getCol_dedupCore_all (by rw [hsg3]; exact hsT))
  obtain ⟨hwfT, hrlT, hfrT, hnmT⟩ := add_derived_frame hwf5 hT
  have hne0 : ¬((convertCore (dropCore (standardizeCore df))).rows.length = 0) := by
    rw [convertCore_rows_length, dropCore_rows_length, standardizeCore_rows_length, h10]
    omega
  have hpipe : run_full_cleaning_pipeline df = .ok T := by
    unfold run_full_cleaning_pipeline standardize_columns drop_redundant_columns
      convert_date_columns handle_missing_values
    simp only [except_ok_bind]
    rw [remove_duplicates_eq, if_neg hne0]
    simp only [except_ok_bind]
    exact hT
  have hrows5 : (dedupCore (convertCore (dropCore (standardizeCore df)))).rows.length = 8 := by
    rw [dedupCore_rows]
    exact hded
  refine ⟨T, hpipe, by rw [hrlT]; exact hrows5, ?_, ?_, ?_⟩
  · intro c hc hmem
    have hnotin5 : c ∉ (dedupCore (convertCore (dropCore (standardizeCore df)))).cols := by
      rw [dedupCore_cols, convertCore_cols]
      exact dropCore_pii (standardizeCore df) c hc
    have hnotnames : c ∉ ["shipping_delay_days", "order_month", "order_year",
        "order_day_of_week", "profit_margin_pct"] := by
      have hall : ∀ x ∈ cols_to_drop, x ∉ ["shipping_delay_days", "order_month",
          "order_year", "order_day_of_week", "profit_margin_pct"] := by decide
      exact hall c hc
    exact hnmT c hnotin5 hnotnames hmem
  · intro j hj hsz
    exact (add_derived_profit_margin hwf5 hpm5 hsm5 hT j hj).1 hsz
  · obtain ⟨i, hi, hszero, _⟩ := hzero
    have hrmem : (convertCore (dropCore (standardizeCore df))).rows[i] ∈
        dedupFirst (convertCore (dropCore (standardizeCore df))).rows :=
      mem_dedupFirst.mpr (List.getElem_mem hi)
    obtain ⟨j, hj, hrj⟩ := List.getElem_of_mem hrmem
    have hj5 : j < (dedupCore (convertCore (dropCore (standardizeCore df)))).rows.length := by
      rw [dedupCore_rows]
      exact hj
    have hjT : j < T.rows.length := by
      rw [hrlT]
      exact hj5
    have hsz5 : getCell (dedupCore (convertCore (dropCore (standardizeCore df)))) "sales" j =
        Cell.num 0 := by
      rw [getCell_of_lt _ _ hj5]
      have hrow : (dedupCore (convertCore (dropCore (standardizeCore df)))).rows[j] =
          (convertCore (dropCore (standardizeCore df))).rows[i] := hrj
      rw [hrow]
      rw [getCell_of_lt _ _ hi] at hszero
      exact hszero
    have hfr := hfrT "sales" hsm5 (by decide)
    have hszT : getCell T "sales" j = Cell.num 0 := by
      rw [hfr.2 j]
      exact hsz5
    exact ⟨j, hjT, hszT,
      (add_derived_profit_margin hwf5 hpm5 hsm5 hT j hjT).1 hszT⟩

unseal Rat.mul Rat.inv Rat.add Rat.sub in
/-- Witness for C3 (amended): on the concrete scenario table `c3Good` the
pipeline returns exactly 8 rows. -/
theorem pipeline_scenario_witness : pipelineRowCount c3Good = .ok 8 := by
  obtain ⟨T, hpipe, hlen, _, _, _⟩ := @pipeline_scenario c3Good
    (by decide) (by decide) (by decide) (by decide) (by decide) (by decide)
    (by decide) (by decide) (by decide) (by decide)
  unfold pipelineRowCount
  rw [hpipe]
  show Except.ok T.rows.length = Except.ok 8
  rw [hlen]

unseal Rat.mul Rat.inv Rat.add Rat.sub in
/-- C3 counterexample: `c3Bad` satisfies every condition of the claim as
stated — 10 loaded rows of which exactly 2 are exact duplicates (8 distinct
rows), all five PII columns, a sales-0 / profit-50 row, and parseable
values throughout both date columns — yet the full pipeline returns 7 rows,
not 8: dropping `customer_email` merges rows 5 and 6, which differed only
there, before deduplication runs. -/
theorem pipeline_scenario_counterexample :
    c3Bad.rows.length = 10 ∧
    (dedupFirst c3Bad.rows).length = 8 ∧
    "customer_email" ∈ c3Bad.cols ∧ "customer_password" ∈ c3Bad.cols ∧
    "product_image" ∈ c3Bad.cols ∧ "customer_fname" ∈ c3Bad.cols ∧
    "customer_lname" ∈ c3Bad.cols ∧
    getCell c3Bad "sales" 6 = Cell.num 0 ∧
    getCell c3Bad "order_profit_per_order" 6 = Cell.num 50 ∧
    (getCol c3Bad "order_date_dateorders").all isParsedDate = true ∧
    (getCol c3Bad "shipping_date_dateorders").all isParsedDate = true ∧
    pipelineRowCount c3Bad = .ok 7 :=
  ⟨by decide, by decide, by decide, by decide, by decide, by decide, by decide,
   by decide, by decide, by decide, by decide, by rfl⟩

end DataCo
